import Mathlib

/-!
Verification development for mysql_filter_slow_log.py (MySQL Log Filter 1.5).

The program is shallowly embedded: lines of the input are lists of
characters (each element is one input line with its terminating newline
already stripped, so the Python slice line[:-1] becomes the line itself and
line[k:-1] becomes List.drop k).  Python integers are Int, Python
timestamps (floats produced by time.mktime) are Int seconds in a
timezone-free model where midnight of a calendar day is
86400 * (days since 1970-01-01); the code only ever adds whole days
(86400) and compares timestamps, so this model is faithful except for
DST irregularities of the local clock, which are abstracted away.
Python values that can be either a string or False are modelled by the
PyTS type below; fallible operations (int(), strptime, indexing) return
Except or Option.
-/

namespace MysqlLogFilter

/-! ## Small Python string helpers -/

/-- Notation-free abbreviation turning a string literal into the character
list representation used throughout. -/
def cl (s : String) : List Char := s.toList

/-- Python substring containment test `needle in hay`. -/
def pyIn (needle hay : List Char) : Bool :=
  hay.tails.any (fun t => needle.isPrefixOf t)

/-- Split a character list at every occurrence of the character `c`,
like Python str.split(c) for a one-character separator. -/
def splitCh (c : Char) : List Char → List (List Char)
  | [] => [[]]
  | x :: xs =>
    let r := splitCh c xs
    if x = c then [] :: r
    else match r with
      | [] => [[x]]
      | y :: ys => (x :: y) :: ys

/-- Split on runs of whitespace discarding empty pieces,
like Python str.split() with no argument. -/
def splitWs (l : List Char) : List (List Char) :=
  (splitCh ' ' (l.map (fun c => if c.isWhitespace then ' ' else c))).filter
    (fun p => p ≠ [])

/-- Numeric value of a list of decimal digits. -/
def digitsToNat (l : List Char) : Nat :=
  l.foldl (fun a c => 10 * a + (c.toNat - 48)) 0

/-- Python int(s): strip surrounding whitespace, optional sign, then a
nonempty run of decimal digits; anything else raises ValueError (none). -/
def pyInt (s : List Char) : Option Int :=
  let t := (s.dropWhile Char.isWhitespace).reverse.dropWhile Char.isWhitespace
    |>.reverse
  let core : Int × List Char :=
    match t with
    | c :: rest =>
      if c = '-' then (-1, rest)
      else if c = '+' then (1, rest)
      else (1, c :: rest)
    | [] => (1, [])
  if core.2 ≠ [] ∧ core.2.all Char.isDigit then
    some (core.1 * (digitsToNat core.2 : Int))
  else none

/-! ## Calendar arithmetic (model of time.mktime / time.strptime output)

Python strptime validates field ranges (day 1..31, month 1..12) but not
calendar consistency; mktime then normalises an overflowing day into the
next month.  daysSinceYear1 therefore adds (d - 1) days to the first day
of the month, which reproduces the normalisation. -/

def isLeap (y : Nat) : Bool :=
  (y % 4 == 0 && y % 100 != 0) || y % 400 == 0

def daysInMonth (y m : Nat) : Nat :=
  if m = 2 then (if isLeap y then 29 else 28)
  else if m = 4 ∨ m = 6 ∨ m = 9 ∨ m = 11 then 30
  else 31

def daysBeforeMonth (y m : Nat) : Nat :=
  (List.range (m - 1)).foldl (fun a i => a + daysInMonth y (i + 1)) 0

/-- Days from 0001-01-01 to the given (possibly day-overflowing) date. -/
def daysSinceYear1 (y m d : Nat) : Nat :=
  365 * (y - 1) + ((y - 1) / 4 + (y - 1) / 400 - (y - 1) / 100)
    + daysBeforeMonth y m + (d - 1)

def epochDays : Nat := daysSinceYear1 1970 1 1

/-- Seconds since the epoch for a clock reading, the model of
time.mktime on a struct_time. -/
def mkTimestamp (y m d h mi s : Nat) : Int :=
  ((daysSinceYear1 y m d : Int) - (epochDays : Int)) * 86400
    + (h : Int) * 3600 + (mi : Int) * 60 + (s : Int)

/-! ## A small backtracking regular-expression engine

Only the constructs appearing in the two regular expressions of the
source and in the strptime format patterns are provided: literal
characters, character classes, fixed-width digit runs, ordered
alternation, greedy option, concatenation, capture groups,
backreferences and a greedy one-or-more whitespace run.  Matching is in
continuation-passing style, which reproduces the leftmost-match,
prefer-left-alternative, prefer-present-option backtracking order of the
Python re module. -/

inductive RE where
  | eps
  | chr (c : Char)
  | cls (p : List Char)
  | digit (n : Nat)
  | seq (a b : RE)
  | alt (a b : RE)
  | opt (a : RE)
  | grp (i : Nat) (a : RE)
  | bref (i : Nat)
  | wsPlus
deriving Repr

abbrev Groups := List (Nat × List Char)

def setGroup (g : Groups) (i : Nat) (v : List Char) : Groups :=
  (i, v) :: g.filter (fun p => p.1 ≠ i)

def getGroup (g : Groups) (i : Nat) : List Char :=
  match g.find? (fun p => p.1 = i) with
  | some p => p.2
  | none => []

/-- Try consuming k, k-1, ..., 1 whitespace characters (greedy plus). -/
def wsTry (s : List Char) (g : Groups)
    (k : List Char → Groups → Option (List Char × Groups)) :
    Nat → Option (List Char × Groups)
  | 0 => none
  | n + 1 =>
    (if (s.take (n + 1)).all Char.isWhitespace ∧ s.length ≥ n + 1 then
      k (s.drop (n + 1)) g else none)
    |>.orElse (fun _ => wsTry s g k n)

def reMatch (re : RE) (s : List Char) (g : Groups)
    (k : List Char → Groups → Option (List Char × Groups)) :
    Option (List Char × Groups) :=
  match re with
  | .eps => k s g
  | .chr c =>
    match s with
    | x :: rest => if x = c then k rest g else none
    | [] => none
  | .cls p =>
    match s with
    | x :: rest => if x ∈ p then k rest g else none
    | [] => none
  | .digit n =>
    if s.length ≥ n ∧ (s.take n).all Char.isDigit then k (s.drop n) g
    else none
  | .seq a b => reMatch a s g (fun s2 g2 => reMatch b s2 g2 k)
  | .alt a b =>
    (reMatch a s g k).orElse (fun _ => reMatch b s g k)
  | .opt a =>
    (reMatch a s g k).orElse (fun _ => k s g)
  | .grp i a =>
    reMatch a s g (fun s2 g2 =>
      k s2 (setGroup g2 i (s.take (s.length - s2.length))))
  | .bref i =>
    let t := getGroup g i
    if t.isPrefixOf s then k (s.drop t.length) g else none
  | .wsPlus => wsTry s g k s.length

/-- Anchored match at the start of s, like re.match; returns the group
table and the unconsumed suffix of a successful match. -/
def reMatchAt (re : RE) (s : List Char) : Option (List Char × Groups) :=
  reMatch re s [] (fun rest g => some (rest, g))

/-- Leftmost search, like re.search; returns the group table of the
first successful match, scanning start positions left to right. -/
def reSearch (re : RE) : List Char → Option Groups
  | [] => (reMatchAt re []).map (fun r => r.2)
  | x :: xs =>
    match reMatchAt re (x :: xs) with
    | some r => some r.2
    | none => reSearch re xs

/-- Anchored full match consuming the entire input, the strptime
discipline (unconverted data remains is an error). -/
def reFullMatch (re : RE) (s : List Char) : Option Groups :=
  match reMatchAt re s with
  | some (rest, g) => if rest = [] then some g else none
  | none => none

/-! ## The two regular expressions of the source -/

/-- Digit-run alternation (?:\d{4}|\d{1,2}): four digits preferred, then
two, then one. -/
def re4or12 : RE := .alt (.digit 4) (.alt (.digit 2) (.digit 1))

/-- Digit-run alternation \d{1,2}. -/
def re12 : RE := .alt (.digit 2) (.digit 1)

/-- Separator character class of dot, slash and dash. -/
def reSep : RE := .cls ['.', '/', '-']

/-- date_regex from parse_date_range: group 1 is a 4-or-1-2 digit run,
then an optional middle part (optional separator, 1-2 digits, optional
separator), then an optional 4-or-1-2 digit run; optionally followed by
a dash and group 2, which is a 4-or-1-2 digit run, an optional
(optional separator, 1-2 digits) part and an optional
(optional separator, 4-or-1-2 digits) part. -/
def dateRegex : RE :=
  .seq
    (.grp 1 (.seq re4or12
      (.seq (.opt (.seq (.opt reSep) (.seq re12 (.opt reSep))))
        (.opt re4or12))))
    (.opt (.seq (.chr '-')
      (.grp 2 (.seq re4or12
        (.seq (.opt (.seq (.opt reSep) re12))
          (.opt (.seq (.opt reSep) re4or12)))))))

/-- Anchored pattern of parse_time: captured 4-or-1-2 digit run,
captured separator, captured 1-2 digit run, then optionally the same
separator again (a backreference) and a captured 4-or-1-2 digit run. -/
def parseTimeRegex : RE :=
  .seq (.grp 1 re4or12)
    (.seq (.grp 2 reSep)
      (.seq (.grp 3 re12)
        (.opt (.seq (.bref 2) (.grp 4 re4or12)))))

/-! ## strptime field patterns (from the Python _strptime regex table) -/

def nzDigits : List Char := ['1','2','3','4','5','6','7','8','9']

/-- Pattern for %d: 3[01]|[12]\d|0[1-9]|[1-9]. -/
def reDay : RE :=
  .alt (.seq (.chr '3') (.cls ['0','1']))
    (.alt (.seq (.cls ['1','2']) (.digit 1))
      (.alt (.seq (.chr '0') (.cls nzDigits)) (.cls nzDigits)))

/-- Pattern for %m: 1[0-2]|0[1-9]|[1-9]. -/
def reMonth : RE :=
  .alt (.seq (.chr '1') (.cls ['0','1','2']))
    (.alt (.seq (.chr '0') (.cls nzDigits)) (.cls nzDigits))

/-- Pattern for %H: 2[0-3]|[0-1]\d|\d. -/
def reHour : RE :=
  .alt (.seq (.chr '2') (.cls ['0','1','2','3']))
    (.alt (.seq (.cls ['0','1']) (.digit 1)) (.digit 1))

/-- Pattern for %M: [0-5]\d|\d. -/
def reMinute : RE :=
  .alt (.seq (.cls ['0','1','2','3','4','5']) (.digit 1)) (.digit 1)

/-- Pattern for %S: 6[01]|[0-5]\d|\d. -/
def reSecond : RE :=
  .alt (.seq (.chr '6') (.cls ['0','1']))
    (.alt (.seq (.cls ['0','1','2','3','4','5']) (.digit 1)) (.digit 1))

/-- Pattern for %y: exactly two digits. -/
def reYear2 : RE := .digit 2

/-- Pattern for %Y as it occurs here: the year substring handed to
strptime is always rebuilt to exactly four characters, and the _strptime
pattern for %Y is \d\d\d\d extended; four digits suffice for this use. -/
def reYear4 : RE := .digit 4

/-- Full strptime pattern for the log timestamp format
%y%m%d %H:%M:%S (format whitespace matches a whitespace run). -/
def logTimeRegex : RE :=
  .seq (.grp 1 reYear2)
    (.seq (.grp 2 reMonth)
      (.seq (.grp 3 reDay)
        (.seq .wsPlus
          (.seq (.grp 4 reHour)
            (.seq (.chr ':')
              (.seq (.grp 5 reMinute)
                (.seq (.chr ':') (.grp 6 reSecond))))))))

/-- Full strptime pattern for a date format with day, month, year in the
order given by dayFirst, separated by the literal character sep:
%d.%m.%Y and %d-%m-%Y (day first) or %m/%d/%Y (month first). -/
def dmyRegex (dayFirst : Bool) (sep : Char) : RE :=
  if dayFirst then
    .seq (.grp 1 reDay)
      (.seq (.chr sep) (.seq (.grp 2 reMonth) (.seq (.chr sep) (.grp 3 reYear4))))
  else
    .seq (.grp 2 reMonth)
      (.seq (.chr sep) (.seq (.grp 1 reDay) (.seq (.chr sep) (.grp 3 reYear4))))

/-- Two-digit year pivot of strptime %y: 0-68 is 2000s, 69-99 is 1900s. -/
def yearOfY2 (v : Nat) : Nat := if v ≤ 68 then 2000 + v else 1900 + v

/-- get_log_timestamp: time.mktime(time.strptime(t, yMd HMS)).
Returns none where Python raises ValueError. -/
def getLogTimestamp (s : List Char) : Option Int :=
  match reFullMatch logTimeRegex s with
  | none => none
  | some g =>
    let y := yearOfY2 (digitsToNat (getGroup g 1))
    let mo := digitsToNat (getGroup g 2)
    let d := digitsToNat (getGroup g 3)
    let h := digitsToNat (getGroup g 4)
    let mi := digitsToNat (getGroup g 5)
    let se := digitsToNat (getGroup g 6)
    some (mkTimestamp y mo d h mi se)

/-- time.mktime(time.strptime(date, formats[sep])) for the three date
formats of parse_time.  Returns none where strptime raises. -/
def strptimeDate (sep : Char) (s : List Char) : Option Int :=
  let dayFirst := sep = '.' ∨ sep = '-'
  match reFullMatch (dmyRegex dayFirst sep) s with
  | none => none
  | some g =>
    let d := digitsToNat (getGroup g 1)
    let mo := digitsToNat (getGroup g 2)
    let y := digitsToNat (getGroup g 3)
    some (mkTimestamp y mo d 0 0 0)

/-! ## parse_time and parse_date_range

Python False-or-timestamp values are Option Int; Python truthiness of
such a value is falsity of False and of the timestamp 0.0, captured by
tsTruthy.  nowYearStr is the decimal rendering of the current year
(str(time.gmtime()[0])), an external input of parse_time. -/

def tsTruthy : Option Int → Bool
  | none => false
  | some t => t ≠ 0

/-- parse_time from the source: strip one trailing dash, match the
anchored date pattern, rebuild the date string with the year completed
from the current year, and run strptime with the separator-selected
format.  Returns none for the Python return value False. -/
def parseTime (nowYearStr : List Char) (date0 : List Char) : Option Int :=
  let date :=
    if date0 ≠ [] ∧ date0.getLast? = some '-' then date0.dropLast else date0
  match reMatchAt parseTimeRegex date with
  | none => none
  | some (_, g) =>
    let m0 := getGroup g 1
    let m1 := getGroup g 2
    let m2 := getGroup g 3
    let m3 := getGroup g 4
    match m1 with
    | [sep] =>
      let rebuilt := m0 ++ [sep] ++ m2 ++ [sep]
        ++ (nowYearStr.take (4 - m3.length) ++ m3)
      strptimeDate sep rebuilt
    | _ => none

/-- parse_date_range from the source.  The error case is the uncaught
IndexError raised on match[0] when the prefixed form has no date match.
The pair components are the Python False-or-timestamp values
(_date_first, _date_last). -/
def parseDateRange (nowYearStr : List Char) (date : List Char) :
    Except String (Option Int × Option Int) :=
  match date with
  | [] => .error "IndexError: string index out of range"
  | c :: _ =>
    if c = '<' ∨ c = '>' ∨ c = '-' then
      match reSearch dateRegex date with
      | none => .error "IndexError: tuple index out of range"
      | some g =>
        let time1 := parseTime nowYearStr (getGroup g 1)
        if tsTruthy time1 then
          let t1 := time1.getD 0
          if c = '>' then .ok (some (t1 + 86400), none)
          else if c = '-' then .ok (none, some (t1 + 86400))
          else .ok (none, some t1)
        else .ok (none, none)
    else
      match reSearch dateRegex date with
      | none => .ok (none, none)
      | some g =>
        let time1 := parseTime nowYearStr (getGroup g 1)
        let time2 := parseTime nowYearStr (getGroup g 2)
        if tsTruthy time2 then
          let t2 := time2.getD 0
          if ¬ tsTruthy time1 then .ok (none, some (t2 + 86400))
          else
            let t1 := time1.getD 0
            if t2 < t1 then .ok (some t2, some (t1 + 86400))
            else .ok (some t1, some (t2 + 86400))
        else if tsTruthy time1 then
          let t1 := time1.getD 0
          let g1 := getGroup g 1
          if date.length = g1.length ∨ date.get? g1.length ≠ some '-' then
            .ok (some t1, some (t1 + 86400))
          else .ok (some t1, none)
        else .ok (none, none)

/-! ## Configuration and the per-line state machine (main loop, lines 342-397) -/

/-- Python value that is either a string or False (the timestamp
variable of the main loop, also used as an aggregation key). -/
inductive PyTS where
  | str (s : List Char)
  | fls
deriving Repr, DecidableEq

/-- Python truthiness: False and the empty string are falsy. -/
def PyTS.truthy : PyTS → Bool
  | .str s => s ≠ []
  | .fls => false

/-- Configuration values produced by the argument-parsing prologue.
date_first and date_last are False-or-timestamp values. -/
structure Config where
  min_query_time : Int := 1
  min_rows_examined : Int := 0
  include_users : List (List Char) := []
  exclude_users : List (List Char) := []
  include_queries : List (List Char) := []
  no_duplicates : Bool := false
  date_first : Option Int := none
  date_last : Option Int := none

/-- Mutable variables of the main loop (lines 342-346). -/
structure LoopState where
  in_query : Bool := false
  query : List Char := []
  timestamp : PyTS := .str []
  user : List Char := []
  query_time : List Int := []
deriving Repr, DecidableEq

/-- One record as printed by process_query in non-duplicates mode. -/
structure Emitted where
  timestamp : PyTS
  user : List Char
  q0 : Int
  q1 : Int
  q2 : Int
  q3 : Int
  query : List Char
deriving Repr, DecidableEq

/-- Aggregation store: query text to user to timestamp to counter
tuple, each dict an insertion-ordered association list with
overwrite-on-repeat semantics, as in Python. -/
abbrev TsMap := List (PyTS × List Int)
abbrev UserMap := List (List Char × TsMap)
abbrev QueriesMap := List (List Char × UserMap)

def updTs (m : TsMap) (ts : PyTS) (qt : List Int) : TsMap :=
  match m with
  | [] => [(ts, qt)]
  | (k, v) :: rest =>
    if k = ts then (k, qt) :: rest else (k, v) :: updTs rest ts qt

def updUser (m : UserMap) (user : List Char) (ts : PyTS) (qt : List Int) :
    UserMap :=
  match m with
  | [] => [(user, [(ts, qt)])]
  | (k, v) :: rest =>
    if k = user then (k, updTs v ts qt) :: rest
    else (k, v) :: updUser rest user ts qt

/-- process_query in no-duplicates mode (lines 177-183):
queries[query][user][timestamp] = query_time with missing levels
created. -/
def processQueryAgg (queries : QueriesMap) (query user : List Char)
    (ts : PyTS) (qt : List Int) : QueriesMap :=
  match queries with
  | [] => [(query, [(user, [(ts, qt)])])]
  | (k, v) :: rest =>
    if k = query then (k, updUser v user ts qt) :: rest
    else (k, v) :: processQueryAgg rest query user ts qt

/-- The print statement of process_query (lines 185-188) indexes
query_time[0] .. query_time[3]; a shorter tuple raises IndexError. -/
def mkEmitted (user : List Char) (ts : PyTS) (qt : List Int)
    (query : List Char) : Except String Emitted :=
  match qt with
  | a :: b :: c :: d :: _ => .ok ⟨ts, user, a, b, c, d, query⟩
  | _ => .error "IndexError: tuple index out of range"

/-- process_query (lines 174-188): aggregate or print. -/
def processQuery (cfg : Config) (queries : QueriesMap)
    (query user : List Char) (ts : PyTS) (qt : List Int) :
    Except String (QueriesMap × List Emitted) :=
  if cfg.no_duplicates then
    .ok (processQueryAgg queries query user ts qt, [])
  else
    (mkEmitted user ts qt query).map (fun e => (queries, [e]))

/-- User filter of the User@Host branch (lines 373-384): a non-empty
include list wins, otherwise the exclude list is consulted. -/
def userAccept (cfg : Config) (user : List Char) : Bool :=
  if cfg.include_users = [] then
    ¬ cfg.exclude_users.any (fun eu => pyIn eu user)
  else cfg.include_users.any (fun iu => pyIn iu user)

/-- Query-substring filter evaluated at flush time (lines 353-358),
keeping the current interest flag when no include-query is set. -/
def substrPass (cfg : Config) (query : List Char) (inq : Bool) : Bool :=
  if cfg.include_queries ≠ [] then
    cfg.include_queries.any (fun iq => pyIn iq query)
  else inq

/-- Date rejection test of the Time branch (line 368), with Python
truthiness of the False-or-timestamp bounds. -/
def dateReject (cfg : Config) (t : Int) : Bool :=
  (tsTruthy cfg.date_first && decide (t < cfg.date_first.getD 0))
    || (tsTruthy cfg.date_last && decide (t > cfg.date_last.getD 0))

/-- Threshold filter of the Query_time branch (lines 390-391). -/
def thresholdPass (cfg : Config) (q0 q3 : Int) : Bool :=
  q0 ≥ cfg.min_query_time
    || (cfg.min_rows_examined ≠ 0 && q3 ≥ cfg.min_rows_examined)

/-- First whitespace-separated word, the value of s.split()[0]; the
empty result encodes the IndexError on an all-whitespace string. -/
def firstWord (l : List Char) : List Char :=
  (l.dropWhile Char.isWhitespace).takeWhile (fun c => !c.isWhitespace)

/-- Flush of the accumulated record at the start of a metadata line
(lines 352-363). -/
def flushState (cfg : Config) (st : LoopState) (queries : QueriesMap) :
    Except String (LoopState × QueriesMap × List Emitted) :=
  if st.query ≠ [] then
    if substrPass cfg st.query st.in_query then
      (processQuery cfg queries st.query st.user st.timestamp
          st.query_time).map
        (fun p => ({st with query := [], in_query := false}, p.1, p.2))
    else .ok ({st with query := [], in_query := false}, queries, [])
  else .ok (st, queries, [])

/-- Parse one numeric counter field: numbers[i].split()[0] then int(). -/
def parseCounter (piece : List Char) : Except String Int :=
  let w := firstWord piece
  if w = [] then .error "IndexError: list index out of range"
  else match pyInt w with
    | some v => .ok v
    | none => .error "ValueError: invalid literal for int()"

/-- Body of the Query_time branch (lines 386-391). -/
def parseQueryTimeLine (cfg : Config) (st : LoopState) (line : List Char) :
    Except String LoopState := do
  let numbers := splitCh ':' (line.drop 12)
  match numbers.get? 1, numbers.get? 2, numbers.get? 3, numbers.get? 4 with
  | some n1, some n2, some n3, some n4 =>
    let q0 ← parseCounter n1
    let q1 ← parseCounter n2
    let q2 ← parseCounter n3
    let q3 ← match pyInt n4 with
      | some v => pure v
      | none => .error "ValueError: invalid literal for int()"
    .ok {st with query_time := [q0, q1, q2, q3],
                 in_query := thresholdPass cfg q0 q3}
  | _, _, _, _ => .error "IndexError: list index out of range"

/-- Metadata-line test of line 351: first character hash, second a
space (an input line always carries its newline in Python, so a
one-character line never passes). -/
def isMarker : List Char → Bool
  | '#' :: ' ' :: _ => true
  | _ => false

/-- One iteration of the main loop (lines 349-394) on one input line
(trailing newline already stripped). -/
def processLine (cfg : Config) (st : LoopState) (queries : QueriesMap)
    (line : List Char) :
    Except String (LoopState × QueriesMap × List Emitted) :=
  if isMarker line then do
    let (st1, qs1, es1) ← flushState cfg st queries
    match (line.drop 2).head? with
    | some 'T' =>
      let tsStr := line.drop 8
      match getLogTimestamp tsStr with
      | none => .error "ValueError: time data does not match format"
      | some t =>
        if dateReject cfg t then .ok ({st1 with timestamp := .fls}, qs1, es1)
        else .ok ({st1 with timestamp := .str tsStr}, qs1, es1)
    | some 'U' =>
      if st1.timestamp.truthy then
        let u := line.drop 13
        .ok ({st1 with user := u, in_query := userAccept cfg u}, qs1, es1)
      else .ok (st1, qs1, es1)
    | some 'Q' =>
      if st1.in_query then
        (parseQueryTimeLine cfg st1 line).map (fun s2 => (s2, qs1, es1))
      else .ok (st1, qs1, es1)
    | _ => .ok (st1, qs1, es1)
  else
    if st.in_query then .ok ({st with query := st.query ++ line}, queries, [])
    else .ok (st, queries, [])

/-- Folding the loop over the remaining input lines. -/
def runLines (cfg : Config) (st : LoopState) (queries : QueriesMap) :
    List (List Char) →
    Except String (LoopState × QueriesMap × List Emitted)
  | [] => .ok (st, queries, [])
  | l :: ls => do
    let (st1, qs1, es1) ← processLine cfg st queries l
    let (st2, qs2, es2) ← runLines cfg st1 qs1 ls
    .ok (st2, qs2, es1 ++ es2)

/-- The whole reading phase: the loop plus the end-of-stream flush of a
truncated trailing record (lines 396-397), which bypasses both the
interest flag and the substring filter. -/
def runRead (cfg : Config) (lines : List (List Char)) :
    Except String (LoopState × QueriesMap × List Emitted) := do
  let (st, qs, es) ← runLines cfg {} {} lines
  if st.query ≠ [] then
    let (qs2, es2) ← processQuery cfg qs st.query st.user st.timestamp
      st.query_time
    .ok (st, qs2, es ++ es2)
  else .ok (st, qs, es)

/-- Emitted records of a run in non-duplicates mode. -/
def runFilter (cfg : Config) (lines : List (List Char)) :
    Except String (List Emitted) :=
  (runRead cfg lines).map (fun r => r.2.2)

/-- Aggregation store of a run in no-duplicates mode. -/
def runAgg (cfg : Config) (lines : List (List Char)) :
    Except String QueriesMap :=
  (runRead cfg lines).map (fun r => r.2.1)

/-! ## Finalize stage of no-duplicates mode (lines 399-448)

The presentation-only output string is not modelled; every numeric field
of the per-query data list is.  Python float averages appear as exact
integers: the one-decimal averages are represented in tenths (the map to
tenths is strictly monotone, so comparisons are preserved), and the
count averages are exact because Python 2 divides two ints with floor
division before rounding. -/

/-- Python 2 round(float(s) divided by float(c), 1) in tenths, at exact
rational precision: round half away from zero of 10 s / c, for c > 0.
Binary floating point can differ from exact rounding on values whose
tenths digit sits within one ulp of a half; that float artefact is
abstracted away. -/
def pyRound1 (s c : Int) : Int :=
  if 0 ≤ s then Int.fdiv (20 * s + c) (2 * c)
  else - Int.fdiv (20 * (-s) + c) (2 * c)

/-- Python 2 round(s div c, 0) where s div c is int floor division. -/
def pyAvgFloor (s c : Int) : Int := Int.fdiv s c

/-- Accumulator of the per-query finalize loop (lines 402-408). -/
structure AggAcc where
  execution_count : Nat := 0
  max_timestamp : Int := 0
  min_timestamp : Int := 2147483647
  sum_query_time : Int := 0
  max_query_time : Int := 0
  sum_lock_time : Int := 0
  max_lock_time : Int := 0
  sum_rows_examined : Int := 0
  max_rows_examined : Int := 0
  sum_rows_sent : Int := 0
  max_rows_sent : Int := 0
deriving Repr, DecidableEq

/-- The numeric part of one finalized per-query data list
(lines 444-448). -/
structure FinalStats where
  execution_count : Nat
  avg_query_time_tenths : Int
  max_query_time : Int
  sum_query_time : Int
  avg_lock_time_tenths : Int
  max_lock_time : Int
  sum_lock_time : Int
  avg_rows_sent : Int
  max_rows_sent : Int
  sum_rows_sent : Int
  avg_rows_examined : Int
  max_rows_examined : Int
  sum_rows_examined : Int
  min_timestamp : Int
  max_timestamp : Int
deriving Repr, DecidableEq

/-- One (timestamp, query_time) entry of the inner loop (lines 413-435):
get_log_timestamp on the key, per-user distinct-tuple maxima, the
timestamp min-max update with its elif, and the four sums.  seen models
the per-user query_times dict keys. -/
def stepEntry (acc : AggAcc) (seen : List (List Int)) (ts : PyTS)
    (qt : List Int) : Except String (AggAcc × List (List Int)) :=
  match ts with
  | .fls => .error "TypeError: expected string or buffer"
  | .str s =>
    match getLogTimestamp s with
    | none => .error "ValueError: time data does not match format"
    | some t =>
      match qt with
      | a :: b :: c :: d :: _ =>
        let p :=
          if qt ∈ seen then (acc, seen)
          else
            ({acc with
                max_query_time := if a > acc.max_query_time then a
                  else acc.max_query_time,
                max_lock_time := if b > acc.max_lock_time then b
                  else acc.max_lock_time,
                max_rows_sent := if c > acc.max_rows_sent then c
                  else acc.max_rows_sent,
                max_rows_examined := if d > acc.max_rows_examined then d
                  else acc.max_rows_examined},
              seen ++ [qt])
        let acc1 :=
          if t < p.1.min_timestamp then {p.1 with min_timestamp := t}
          else if t > p.1.max_timestamp then {p.1 with max_timestamp := t}
          else p.1
        .ok ({acc1 with
            sum_query_time := acc1.sum_query_time + a,
            sum_lock_time := acc1.sum_lock_time + b,
            sum_rows_sent := acc1.sum_rows_sent + c,
            sum_rows_examined := acc1.sum_rows_examined + d,
            execution_count := acc1.execution_count + 1},
          p.2)
      | _ => .error "IndexError: tuple index out of range"

def stepEntries (acc : AggAcc) (seen : List (List Int)) :
    TsMap → Except String (AggAcc × List (List Int))
  | [] => .ok (acc, seen)
  | (ts, qt) :: rest => do
    let (acc1, seen1) ← stepEntry acc seen ts qt
    stepEntries acc1 seen1 rest

/-- Lexicographic byte-order comparison of Python strings. -/
def listCharLt : List Char → List Char → Bool
  | [], [] => false
  | [], _ :: _ => true
  | _ :: _, [] => false
  | a :: as, b :: bs =>
    if a.toNat < b.toNat then true
    else if b.toNat < a.toNat then false
    else listCharLt as bs

/-- cmp_users (lines 169-172) as a sort relation: users ascending.
Python sorted is stable; the model uses a stable insertion sort. -/
def userOrd (a b : List Char × TsMap) : Prop := listCharLt b.1 a.1 = false

instance : DecidableRel userOrd := fun a b => by
  unfold userOrd; infer_instance

/-- Per-user part of the finalize loop (lines 410-438): users are
visited sorted ascending, the distinct-tuple set resets per user. -/
def stepUsers (acc : AggAcc) : List (List Char × TsMap) →
    Except String AggAcc
  | [] => .ok acc
  | (_, tsm) :: rest => do
    let (acc1, _) ← stepEntries acc [] tsm
    stepUsers acc1 rest

/-- Finalize one query group (lines 402-448).  A zero execution count
would be a ZeroDivisionError; it cannot arise from processQueryAgg. -/
def finalizeQuery (users : UserMap) : Except String FinalStats := do
  let acc ← stepUsers {} (users.insertionSort userOrd)
  let c : Int := acc.execution_count
  if c = 0 then .error "ZeroDivisionError: division by zero"
  else
    .ok { execution_count := acc.execution_count
          avg_query_time_tenths := pyRound1 acc.sum_query_time c
          max_query_time := acc.max_query_time
          sum_query_time := acc.sum_query_time
          avg_lock_time_tenths := pyRound1 acc.sum_lock_time c
          max_lock_time := acc.max_lock_time
          sum_lock_time := acc.sum_lock_time
          avg_rows_sent := pyAvgFloor acc.sum_rows_sent c
          max_rows_sent := acc.max_rows_sent
          sum_rows_sent := acc.sum_rows_sent
          avg_rows_examined := pyAvgFloor acc.sum_rows_examined c
          max_rows_examined := acc.max_rows_examined
          sum_rows_examined := acc.sum_rows_examined
          min_timestamp := acc.min_timestamp
          max_timestamp := acc.max_timestamp }

/-! ## Sorting and truncation stage (lines 161-167, 287-296, 337-339,
450-496) -/

/-- Numeric value at a data-list index (lines 444-448): index 1 is the
execution count, 2-4 avg, max, sum of query time, 5-7 of lock time,
8-10 of rows sent, 11-13 of rows examined, 14-15 the timestamps. -/
def statAt (st : FinalStats) : Nat → Int
  | 1 => st.execution_count
  | 2 => st.avg_query_time_tenths
  | 3 => st.max_query_time
  | 4 => st.sum_query_time
  | 5 => st.avg_lock_time_tenths
  | 6 => st.max_lock_time
  | 7 => st.sum_lock_time
  | 8 => st.avg_rows_sent
  | 9 => st.max_rows_sent
  | 10 => st.sum_rows_sent
  | 11 => st.avg_rows_examined
  | 12 => st.max_rows_examined
  | 13 => st.sum_rows_examined
  | 14 => st.min_timestamp
  | 15 => st.max_timestamp
  | _ => 0

/-- Python builtin cmp on numbers. -/
def pyCmp (a b : Int) : Int := if a < b then -1 else if b < a then 1 else 0

/-- cmp_queries (lines 161-167): first differing configured index
decides, negated cmp so that larger values sort first. -/
def cmpQueries (ns : List Nat) (a b : FinalStats) : Int :=
  match ns with
  | [] => 0
  | i :: rest =>
    if statAt a i ≠ statAt b i then -1 * pyCmp (statAt a i) (statAt b i)
    else cmpQueries rest a b

/-- Index sequence of default_sorting (lines 287-291), in pair order. -/
def defaultSortIndices : List Nat := [4, 2, 3, 7, 5, 6, 13, 11, 12, 1, 10, 8, 9]

/-- Completion of new_sorting (lines 337-339): the source iterates the
pair positions of default_sorting, which lines 293-296 extended with a
short-form copy of every pair, hence the doubled index list; already
present indices are skipped. -/
def completeSorting (ns : List Nat) : List Nat :=
  (defaultSortIndices ++ defaultSortIndices).foldl
    (fun acc i => if i ∈ acc then acc else acc ++ [i]) ns

/-- Sort relation derived from cmp_queries for the stable sort. -/
def resultOrd (ns : List Nat) (a b : List Char × FinalStats) : Prop :=
  cmpQueries ns a.2 b.2 ≤ 0

instance (ns : List Nat) : DecidableRel (resultOrd ns) := fun a b => by
  unfold resultOrd; infer_instance

/-- Output stage (lines 450-496): sorted(lines.iteritems(), cmp_queries)
then the break-after-top loop, which emits min(top, length) results when
top is positive and everything when top is zero. -/
def sortedResults (ns : List Nat) (top : Nat)
    (xs : List (List Char × FinalStats)) : List (List Char × FinalStats) :=
  if top = 0 then xs.insertionSort (resultOrd ns)
  else (xs.insertionSort (resultOrd ns)).take top

/-! ## Top level (lines 300-340)

After argument parsing and the completion of new_sorting, line 340 of
the source is the statement print new_sorting followed by sys.exit().
The process therefore terminates before the stdin loop at line 349 is
reached, whatever the input holds; its sole observable output is the
completed sort-index list. -/

inductive ProgramResult where
  | sortingDebug (ns : List Nat)
deriving Repr, DecidableEq

/-- Observable behaviour of a run that did not ask for help: the
completed new_sorting list is printed and the process exits at line 340;
the input stream is never read. -/
def mainProgram (ns : List Nat) (_input : List (List Char)) : ProgramResult :=
  ProgramResult.sortingDebug (completeSorting ns)

/-! ## Spec-side vocabulary: well-formed records and expected emissions

These definitions follow the wording of the specification (a record is
a Time line, a User line, a Query_time line, then body lines) and are
used to state what the loop embedding is proved to do on streams of
complete records. -/

/-- One complete record of the input stream: the timestamp text, the
user text, the four counter fields as written, and the body lines. -/
structure RawRecord where
  ts : List Char
  user : List Char
  d0 : List Char
  d1 : List Char
  d2 : List Char
  d3 : List Char
  body : List (List Char)

def tsLineOf (r : RawRecord) : List Char :=
  '#' :: ' ' :: 'T' :: 'i' :: 'm' :: 'e' :: ':' :: ' ' :: r.ts

def userLineOf (r : RawRecord) : List Char :=
  '#' :: ' ' :: 'U' :: 's' :: 'e' :: 'r' :: '@' :: 'H' :: 'o' :: 's' :: 't'
    :: ':' :: ' ' :: r.user

def lockText : List Char :=
  ' ' :: ' ' :: 'L' :: 'o' :: 'c' :: 'k' :: '_' :: 't' :: 'i' :: 'm' :: 'e'
    :: []

def sentText : List Char :=
  ' ' :: ' ' :: 'R' :: 'o' :: 'w' :: 's' :: '_' :: 's' :: 'e' :: 'n' :: 't'
    :: []

def examText : List Char :=
  ' ' :: ' ' :: 'R' :: 'o' :: 'w' :: 's' :: '_' :: 'e' :: 'x' :: 'a' :: 'm'
    :: 'i' :: 'n' :: 'e' :: 'd' :: []

/-- The rendered Query_time line; the grouping mirrors where the colons
sit so that the split computation stays syntactic. -/
def qtLineOf (r : RawRecord) : List Char :=
  '#' :: ' ' :: 'Q' :: 'u' :: 'e' :: 'r' :: 'y' :: '_' :: 't' :: 'i' :: 'm'
    :: 'e' :: ':' :: ' ' ::
    (r.d0 ++ (lockText ++ (':' :: ' ' ::
      (r.d1 ++ (sentText ++ (':' :: ' ' ::
        (r.d2 ++ (examText ++ (':' :: ' ' :: r.d3)))))))))

def renderRecord (r : RawRecord) : List (List Char) :=
  tsLineOf r :: userLineOf r :: qtLineOf r :: r.body

def renderAll (rs : List RawRecord) : List (List Char) :=
  (rs.map renderRecord).flatten

/-- Numeric values of the four counter fields of a well-formed record. -/
def val0 (r : RawRecord) : Int := (digitsToNat r.d0 : Int)
def val1 (r : RawRecord) : Int := (digitsToNat r.d1 : Int)
def val2 (r : RawRecord) : Int := (digitsToNat r.d2 : Int)
def val3 (r : RawRecord) : Int := (digitsToNat r.d3 : Int)

/-- Timestamp value of a well-formed record. -/
def tOf (r : RawRecord) : Int := (getLogTimestamp r.ts).getD 0

/-- Well-formedness of a record: the timestamp parses, the counter
fields are nonempty digit runs, the body lines are not metadata lines
and the concatenated body is nonempty. -/
structure WFRecord (r : RawRecord) : Prop where
  ts_ok : (getLogTimestamp r.ts).isSome
  d0_ne : r.d0 ≠ []
  d0_dig : r.d0.all Char.isDigit
  d1_ne : r.d1 ≠ []
  d1_dig : r.d1.all Char.isDigit
  d2_ne : r.d2 ≠ []
  d2_dig : r.d2.all Char.isDigit
  d3_ne : r.d3 ≠ []
  d3_dig : r.d3.all Char.isDigit
  body_ok : ∀ l ∈ r.body, isMarker l = false
  body_ne : r.body.flatten ≠ []

/-- Acceptance of a record by the three line-level filters, in the
order the loop applies them. -/
def acceptRecord (cfg : Config) (r : RawRecord) : Bool :=
  !dateReject cfg (tOf r) && userAccept cfg r.user
    && thresholdPass cfg (val0 r) (val3 r)

/-- The substring filter as applied at an internal flush. -/
def substrOK (cfg : Config) (q : List Char) : Bool :=
  if cfg.include_queries ≠ [] then cfg.include_queries.any (fun iq => pyIn iq q)
  else true

/-- The record the loop prints for an accepted complete record. -/
def emitOf (r : RawRecord) : Emitted :=
  ⟨.str r.ts, r.user, val0 r, val1 r, val2 r, val3 r, r.body.flatten⟩

/-- Loop state immediately after the lines of an accepted record. -/
def loadedState (r : RawRecord) : LoopState :=
  ⟨true, r.body.flatten, .str r.ts, r.user, [val0 r, val1 r, val2 r, val3 r]⟩

/-- Expected emissions for a stream of complete records: every record
but the last is emitted iff it is accepted and passes the substring
filter; the trailing record is flushed at end of stream, where the
source skips the substring filter. -/
def emitsOf (cfg : Config) : List RawRecord → List Emitted
  | [] => []
  | [r] => if acceptRecord cfg r then [emitOf r] else []
  | r :: r2 :: rest =>
    (if acceptRecord cfg r && substrOK cfg r.body.flatten then [emitOf r]
     else []) ++ emitsOf cfg (r2 :: rest)

/-- Flush emissions of a pending accepted record at the next record
boundary: emitted iff it passes the substring filter. -/
def pendEmits (cfg : Config) : Option RawRecord → List Emitted
  | none => []
  | some p => if substrOK cfg p.body.flatten then [emitOf p] else []

/-- Emission of a pending record at end of stream: the source flushes
it without the substring check. -/
def eofEmits : Option RawRecord → List Emitted
  | none => []
  | some p => [emitOf p]

/-- Loop-state characterisation between records: either clean (nothing
pending) or loaded with the data of the pending record. -/
def StateOK (s : LoopState) : Option RawRecord → Prop
  | none => s.query = [] ∧ s.in_query = false
  | some p => s = loadedState p ∧ p.body.flatten ≠ []

/-- The record still pending after a list of records is processed. -/
def pendAfter (cfg : Config) : Option RawRecord → List RawRecord →
    Option RawRecord
  | pend, [] => pend
  | _, r :: rest =>
    pendAfter cfg (if acceptRecord cfg r then some r else none) rest

/-- All flush emissions produced while processing a list of records
with a given pending record. -/
def emitsMid (cfg : Config) : Option RawRecord → List RawRecord →
    List Emitted
  | _, [] => []
  | pend, r :: rest =>
    pendEmits cfg pend
      ++ emitsMid cfg (if acceptRecord cfg r then some r else none) rest

/-! ## Spec-side vocabulary for the sorting claim -/

/-- Ordering required by the specification: at the first key of the
list on which the two results differ, the larger value comes first;
results equal on every key are unconstrained. -/
def specKeyOrder (ns : List Nat) (a b : FinalStats) : Prop :=
  match ns with
  | [] => True
  | i :: rest =>
    statAt b i < statAt a i ∨ (statAt a i = statAt b i ∧ specKeyOrder rest a b)

/-! ## Spec-side vocabulary for the numeric claims -/

/-- Round half away from zero to one decimal, in tenths, at exact
rational precision. -/
def roundHalfAwayTenths (q : ℚ) : ℤ :=
  if 0 ≤ q then ⌊10 * q + 1 / 2⌋ else -⌊10 * (-q) + 1 / 2⌋

/-! ## Spec-side vocabulary for the aggregation-count claim -/

/-- One accepted record as handed to process_query in no-duplicates
mode. -/
structure AggInput where
  query : List Char
  user : List Char
  ts : PyTS
  qt : List Int
deriving DecidableEq

def keyOf (r : AggInput) : List Char × List Char × PyTS :=
  (r.query, r.user, r.ts)

/-- Folding every accepted record into the aggregation store. -/
def aggregateAll (rs : List AggInput) : QueriesMap :=
  rs.foldl (fun qs r => processQueryAgg qs r.query r.user r.ts r.qt) []

/-- Total number of stored (user, timestamp) occurrence entries, the
quantity the finalize loop reports as the execution count sum. -/
def storedCount (qs : QueriesMap) : Nat :=
  (qs.map (fun q => (q.2.map (fun u => u.2.length)).sum)).sum

def hasTs (m : TsMap) (ts : PyTS) : Bool := m.any (fun p => p.1 = ts)

def hasUserTs (m : UserMap) (user : List Char) (ts : PyTS) : Bool :=
  m.any (fun p => p.1 = user && hasTs p.2 ts)

def hasTriple (qs : QueriesMap) (q user : List Char) (ts : PyTS) : Bool :=
  qs.any (fun p => p.1 = q && hasUserTs p.2 user ts)

/-- Number of stored occurrence entries under one query group. -/
def userEntryCount (m : UserMap) : Nat :=
  (m.map (fun u => u.2.length)).sum

def hasKeyU (m : UserMap) (u : List Char) : Bool :=
  m.any (fun p => p.1 = u)

def hasKeyQ (qs : QueriesMap) (q : List Char) : Bool :=
  qs.any (fun p => p.1 = q)

/-- Key uniqueness at the two outer dict levels, an invariant of every
store built by process_query (Python dict keys are unique). -/
def wfStore (qs : QueriesMap) : Prop :=
  (qs.map Prod.fst).Nodup ∧ ∀ p ∈ qs, (p.2.map Prod.fst).Nodup

/-! ## Concrete configurations and input streams used by the claims -/

/-- The example record of the module docstring (lines 50-53). -/
def exDocLines : List (List Char) :=
  [cl "# Time: 070119 12:29:58",
   cl "# User@Host: root[root] @ localhost []",
   cl "# Query_time: 1  Lock_time: 0  Rows_sent: 1  Rows_examined: 12345",
   cl "SELECT * FROM test;"]

def exDocEmitted : Emitted :=
  ⟨.str (cl "070119 12:29:58"), cl "root[root] @ localhost []",
    1, 0, 1, 12345, cl "SELECT * FROM test;"⟩

/-- Configuration with a substring filter and the date range parsed
from the documented example 13.11.2006 (interval end 2006-11-14). -/
def cfgC2 : Config :=
  { include_queries := [cl "xyz"],
    date_last := some (mkTimestamp 2006 11 14 0 0 0) }

/-- A record timed exactly at the interval end, with a body that does
not contain the include-query string, flushed at end of stream. -/
def exC2Lines : List (List Char) :=
  [cl "# Time: 061114 00:00:00",
   cl "# User@Host: root[root] @ localhost []",
   cl "# Query_time: 2  Lock_time: 0  Rows_sent: 1  Rows_examined: 5",
   cl "SELECT 1"]

def exC2Emitted : Emitted :=
  ⟨.str (cl "061114 00:00:00"), cl "root[root] @ localhost []",
    2, 0, 1, 5, cl "SELECT 1"⟩

/-- Date filter set so that 2006-11-20 is rejected. -/
def cfgC8 : Config := { date_last := some (mkTimestamp 2006 11 15 0 0 0) }

/-- An accepted record with an empty body followed by a date-rejected
record whose Query_time line passes the thresholds. -/
def exC8Lines : List (List Char) :=
  [cl "# Time: 061113 10:00:00",
   cl "# User@Host: root[root] @ localhost []",
   cl "# Query_time: 2  Lock_time: 0  Rows_sent: 1  Rows_examined: 5",
   cl "# Time: 061120 10:00:00",
   cl "# User@Host: evil[evil] @ h []",
   cl "# Query_time: 5  Lock_time: 0  Rows_sent: 1  Rows_examined: 5",
   cl "SELECT 1"]

/-- What the source actually prints for exC8Lines: the body of the
date-rejected record, under the timestamp False and the user of the
previous record. -/
def exC8Emitted : Emitted :=
  ⟨.fls, cl "root[root] @ localhost []", 5, 0, 1, 5, cl "SELECT 1"⟩

/-- A malformed Query_time line inside an otherwise accepted record,
followed by a well-formed record that is never reached. -/
def exC7Lines : List (List Char) :=
  [cl "# Time: 070119 12:29:58",
   cl "# User@Host: root[root] @ localhost []",
   cl "# Query_time: abc  Lock_time: 0  Rows_sent: 1  Rows_examined: 5",
   cl "SELECT 1;",
   cl "# Time: 070119 12:30:58",
   cl "# User@Host: root[root] @ localhost []",
   cl "# Query_time: 7  Lock_time: 0  Rows_sent: 1  Rows_examined: 5",
   cl "SELECT 2;"]

/-- The malformed Query_time line alone. -/
def exC7BadLine : List Char :=
  cl "# Query_time: abc  Lock_time: 0  Rows_sent: 1  Rows_examined: 5"

/-- A record with a two-line query body. -/
def exC9Lines : List (List Char) :=
  [cl "# Time: 070119 12:29:58",
   cl "# User@Host: root[root] @ localhost []",
   cl "# Query_time: 1  Lock_time: 0  Rows_sent: 1  Rows_examined: 5",
   cl "SELECT a,",
   cl "FROM t;"]

/-- Aggregation input of the duplicate-merging scenario: same query
text, same user, same counter tuple, two different timestamps. -/
def aggRecA : AggInput :=
  ⟨cl "SELECT * FROM test;", cl "root[root] @ localhost []",
    .str (cl "061113 10:00:00"), [3, 1, 2, 7]⟩

def aggRecB : AggInput :=
  ⟨cl "SELECT * FROM test;", cl "root[root] @ localhost []",
    .str (cl "061113 11:00:00"), [3, 1, 2, 7]⟩

/-- A user map carrying two occurrences whose rows-sent values are
1 and 2 (for the average-rounding counterexample). -/
def usersC5 : UserMap :=
  [(cl "root[root] @ localhost []",
    [(.str (cl "061113 10:00:00"), [1, 0, 1, 10]),
     (.str (cl "061113 11:00:00"), [1, 0, 2, 10])])]

/-- A user map carrying exactly one occurrence (for the min-max
timestamp claim). -/
def usersC6 : UserMap :=
  [(cl "root[root] @ localhost []",
    [(.str (cl "061113 10:00:00"), [2, 1, 3, 9])])]

/-- A concrete complete record used by the stream-refinement witness. -/
def recW : RawRecord :=
  ⟨cl "061114 00:00:00", cl "root[root] @ localhost []",
    cl "2", cl "0", cl "1", cl "5", [cl "SELECT 1"]⟩

/-- Finalized statistics of usersC5. -/
def statsC5 : FinalStats :=
  { execution_count := 2, avg_query_time_tenths := 10,
    max_query_time := 1, sum_query_time := 2,
    avg_lock_time_tenths := 0, max_lock_time := 0,
    sum_lock_time := 0, avg_rows_sent := 1, max_rows_sent := 2,
    sum_rows_sent := 3, avg_rows_examined := 10,
    max_rows_examined := 10, sum_rows_examined := 20,
    min_timestamp := mkTimestamp 2006 11 13 10 0 0,
    max_timestamp := mkTimestamp 2006 11 13 11 0 0 }

/-- Finalized statistics of usersC6. -/
def statsC6 : FinalStats :=
  { execution_count := 1, avg_query_time_tenths := 20,
    max_query_time := 2, sum_query_time := 2,
    avg_lock_time_tenths := 10, max_lock_time := 1,
    sum_lock_time := 1, avg_rows_sent := 3, max_rows_sent := 3,
    sum_rows_sent := 3, avg_rows_examined := 9,
    max_rows_examined := 9, sum_rows_examined := 9,
    min_timestamp := mkTimestamp 2006 11 13 10 0 0,
    max_timestamp := 0 }

/-! ## Claim theorems -/

set_option maxRecDepth 40000

/-- C1: the claim states that every run without help consumes the input
and emits the filtered output.  In fact line 340 of the source prints
the completed sort-index list and exits before the stdin loop is ever
entered, so the observable result is the same for every input; the
second conjunct shows that the filtering pipeline further down the file
would have emitted a record for the documented example input, so output
is genuinely lost. -/
theorem claim_C1_exits_before_reading_input :
    (∀ input : List (List Char),
      mainProgram [] input
        = .sortingDebug [4, 2, 3, 7, 5, 6, 13, 11, 12, 1, 10, 8, 9])
    ∧ runFilter {} exDocLines = .ok [exDocEmitted] :=
  ⟨fun _ => rfl, rfl⟩

/-- C4: parse_date_range maps the four documented example expressions
to the documented inclusive-start, exclusive-end intervals; the last
four conjuncts show the result does not depend on the current-year
input, which all four examples leave unused because they carry
four-digit years. -/
theorem claim_C4_documented_date_ranges :
    (parseDateRange (cl "2026") (cl "13.11.2006")
      = .ok (some (mkTimestamp 2006 11 13 0 0 0),
             some (mkTimestamp 2006 11 14 0 0 0)))
    ∧ (parseDateRange (cl "2026") (cl "13.11.2006-15.11.2006")
      = .ok (some (mkTimestamp 2006 11 13 0 0 0),
             some (mkTimestamp 2006 11 16 0 0 0)))
    ∧ (parseDateRange (cl "2026") (cl ">13.11.2006")
      = .ok (some (mkTimestamp 2006 11 14 0 0 0), none))
    ∧ (parseDateRange (cl "2026") (cl "<13.11.2006")
      = .ok (none, some (mkTimestamp 2006 11 13 0 0 0)))
    ∧ (parseDateRange (cl "1999") (cl "13.11.2006")
      = parseDateRange (cl "2026") (cl "13.11.2006"))
    ∧ (parseDateRange (cl "1999") (cl "13.11.2006-15.11.2006")
      = parseDateRange (cl "2026") (cl "13.11.2006-15.11.2006"))
    ∧ (parseDateRange (cl "1999") (cl ">13.11.2006")
      = parseDateRange (cl "2026") (cl ">13.11.2006"))
    ∧ (parseDateRange (cl "1999") (cl "<13.11.2006")
      = parseDateRange (cl "2026") (cl "<13.11.2006")) :=
  ⟨rfl, rfl, rfl, rfl, rfl, rfl, rfl, rfl⟩

/-- C6: the claim states the reported last timestamp is the maximum of
the occurrence timestamps and that a single-occurrence group reports
its occurrence time as both first and last.  Because the update at
lines 427-430 is an if-elif, the first occurrence only ever lowers
min_timestamp, so a single-occurrence group keeps max_timestamp 0.0:
here min_timestamp is the occurrence time but max_timestamp stays 0,
not the (nonzero) maximum the claim requires. -/
theorem claim_C6_single_occurrence_max_timestamp_zero :
    finalizeQuery usersC6 = .ok statsC6
    ∧ statsC6.min_timestamp = mkTimestamp 2006 11 13 10 0 0
    ∧ statsC6.max_timestamp = 0
    ∧ mkTimestamp 2006 11 13 10 0 0 ≠ 0 :=
  ⟨rfl, rfl, rfl, by decide⟩

/-- C8: the claim states a date-rejected record is skipped entirely and
its body is never emitted, whatever the preceding record was.  After an
accepted record with an empty body the interest flag survives the
rejected Time line (the flush at lines 352-363 only runs on a nonempty
body), the User line is skipped but the Query_time line of the rejected
record re-arms interest, and its body is emitted under timestamp False
and the previous user.  The last conjunct confirms the second Time line
was indeed rejected by the date filter. -/
theorem claim_C8_rejected_record_body_emitted :
    runFilter cfgC8 exC8Lines = .ok [exC8Emitted]
    ∧ exC8Emitted.timestamp = .fls
    ∧ exC8Emitted.query = cl "SELECT 1"
    ∧ (getLogTimestamp (cl "061120 10:00:00")).map (dateReject cfgC8)
      = some true :=
  ⟨rfl, rfl, rfl, rfl⟩

/-- C2, counterexample: a record flushed at end of stream (lines
396-397) is emitted although its query fails the configured substring
filter, and its timestamp equals the interval end, which the claimed
exclusive-end membership forbids. -/
theorem claim_C2_counterexample :
    runFilter cfgC2 exC2Lines = .ok [exC2Emitted]
    ∧ substrOK cfgC2 exC2Emitted.query = false
    ∧ getLogTimestamp (cl "061114 00:00:00")
      = some (mkTimestamp 2006 11 14 0 0 0)
    ∧ cfgC2.date_last = some (mkTimestamp 2006 11 14 0 0 0)
    ∧ ¬ mkTimestamp 2006 11 14 0 0 0 < mkTimestamp 2006 11 14 0 0 0 :=
  ⟨rfl, rfl, rfl, rfl, by decide⟩

/-- C3, counterexample: two identical accepted records (same query,
user and timestamp) collapse into one stored occurrence because the
innermost dict of process_query is keyed by the timestamp, so the total
execution count is 1, not the number of accepted records 2. -/
theorem claim_C3_counterexample :
    ((aggregateAll [aggRecA, aggRecA]).map
        (fun q => (finalizeQuery q.2).map (fun st => st.execution_count)))
      = [.ok 1]
    ∧ [aggRecA, aggRecA].length = 2 :=
  ⟨rfl, rfl⟩

/-- C5, counterexample: a group whose two occurrences have rows-sent
values 1 and 2 reports average rows sent 1, because line 442 divides
two Python 2 ints (floor division) before rounding; the claimed
nearest-integer value of the mean 1.5 is 2. -/
theorem claim_C5_counterexample :
    finalizeQuery usersC5 = .ok statsC5
    ∧ statsC5.sum_rows_sent = 3
    ∧ statsC5.execution_count = 2
    ∧ statsC5.avg_rows_sent = 1
    ∧ round ((3 : ℚ) / 2) = 2
    ∧ (1 : Int) ≠ 2 :=
  ⟨rfl, rfl, rfl, rfl, by norm_num [round_eq], by decide⟩

/-- C7, counterexample: the main loop has no exception handler, so the
malformed Query_time field aborts the whole run with a ValueError; the
well-formed record later in the stream is never processed, contradicting
the claim that the record is dropped and the run continues. -/
theorem claim_C7_counterexample :
    runFilter {} exC7Lines = .error "ValueError: invalid literal for int()" :=
  rfl

/-- C9, counterexample: a two-line query body is emitted as the plain
concatenation of the two lines, without the newline separator the claim
requires, because line 394 appends line[:-1] with no joining
character. -/
theorem claim_C9_counterexample :
    runFilter {} exC9Lines
      = .ok [⟨.str (cl "070119 12:29:58"), cl "root[root] @ localhost []",
              1, 0, 1, 5, cl "SELECT a,FROM t;"⟩]
    ∧ cl "SELECT a,FROM t;" ≠ cl "SELECT a," ++ '\n' :: cl "FROM t;" :=
  ⟨rfl, by decide⟩

theorem flushState_of_query_nil (cfg : Config) (st : LoopState)
    (qs : QueriesMap) (hq : st.query = []) :
    flushState cfg st qs = .ok (st, qs, []) := by
  unfold flushState
  rw [if_neg]
  simp [hq]

/-- C7, amended: a Query_time line with a malformed numeric field,
reached with the interest flag set (a fresh record, nothing pending to
flush), makes the loop iteration return the uncaught ValueError, so the
run aborts instead of dropping the record and continuing. -/
theorem claim_C7_amended (cfg : Config) (st : LoopState) (qs : QueriesMap)
    (hin : st.in_query = true) (hq : st.query = []) :
    processLine cfg st qs exC7BadLine
      = .error "ValueError: invalid literal for int()" := by
  unfold processLine
  rw [if_pos (show isMarker exC7BadLine = true from rfl)]
  rw [show (bind (flushState cfg st qs) :
        ((LoopState × QueriesMap × List Emitted) →
          Except String (LoopState × QueriesMap × List Emitted)) →
        Except String (LoopState × QueriesMap × List Emitted))
      = bind (Except.ok (st, qs, ([] : List Emitted)))
    from by rw [flushState_of_query_nil cfg st qs hq]]
  show (if st.in_query = true then _ else _) = _
  rw [hin]
  rfl

/-- Witness for claim_C7_amended at a concrete state. -/
theorem claim_C7_witness :
    processLine {} { in_query := true } [] exC7BadLine
      = .error "ValueError: invalid literal for int()" :=
  claim_C7_amended {} { in_query := true } [] rfl rfl

/-- C9, amended: while the interest flag is set, a run of non-marker
lines appends the plain concatenation of the lines to the accumulated
query text, with no separator inserted, and emits nothing. -/
theorem claim_C9_amended (cfg : Config) (st : LoopState) (qs : QueriesMap)
    (ls : List (List Char)) (hmk : ∀ l ∈ ls, isMarker l = false)
    (hin : st.in_query = true) :
    runLines cfg st qs ls
      = .ok ({st with query := st.query ++ ls.flatten}, qs, []) := by
  induction ls generalizing st with
  | nil =>
    show Except.ok (st, qs, []) = _
    simp
  | cons l ls ih =>
    show (bind (processLine cfg st qs l) _ :
      Except String (LoopState × QueriesMap × List Emitted)) = _
    have hl : isMarker l = false := hmk l (by simp)
    have hstep : processLine cfg st qs l
        = .ok ({st with query := st.query ++ l}, qs, []) := by
      unfold processLine
      rw [if_neg (by simp [hl]), if_pos hin]
    rw [hstep]
    show (bind (runLines cfg {st with query := st.query ++ l} qs ls) _ :
      Except String (LoopState × QueriesMap × List Emitted)) = _
    rw [ih {st with query := st.query ++ l}
      (fun x hx => hmk x (by simp [hx])) hin]
    show Except.ok _ = _
    simp [List.append_assoc]

/-- Witness for claim_C9_amended: two body lines from a fresh
interested state. -/
theorem claim_C9_witness :
    runLines {} { in_query := true } [] [cl "SELECT a,", cl "FROM t;"]
      = .ok ({ in_query := true, query := cl "SELECT a,FROM t;" }, [], []) :=
  claim_C9_amended {} { in_query := true } [] [cl "SELECT a,", cl "FROM t;"]
    (by decide) rfl

theorem fdiv_eq_floor_ratCast (a b : ℤ) (hb : 0 < b) :
    Int.fdiv a b = ⌊(a : ℚ) / (b : ℚ)⌋ := by
  rw [Int.fdiv_eq_ediv _ hb.le]
  rw [show (b : ℚ) = ((b.toNat : ℤ) : ℚ) by
    rw [Int.toNat_of_nonneg hb.le]]
  rw [show ((b.toNat : ℤ) : ℚ) = ((b.toNat : ℕ) : ℚ) by push_cast; rfl]
  rw [Rat.floor_intCast_div_natCast a b.toNat, Int.toNat_of_nonneg hb.le]

theorem pyRound1_eq_roundHalfAwayTenths (s c : ℤ) (hc : 0 < c) :
    pyRound1 s c = roundHalfAwayTenths ((s : ℚ) / (c : ℚ)) := by
  have hc0 : (0 : ℚ) < (c : ℚ) := by exact_mod_cast hc
  have hsign : (0 ≤ (s : ℚ) / (c : ℚ)) ↔ 0 ≤ s := by
    rw [le_div_iff₀ hc0, zero_mul]
    exact_mod_cast Iff.rfl
  unfold pyRound1 roundHalfAwayTenths
  by_cases hs : 0 ≤ s
  · rw [if_pos hs, if_pos (hsign.mpr hs)]
    rw [fdiv_eq_floor_ratCast _ _ (by positivity)]
    congr 1
    push_cast
    field_simp
    ring_nf
  · rw [if_neg hs, if_neg (fun hq => hs (hsign.mp hq))]
    rw [fdiv_eq_floor_ratCast _ _ (by positivity)]
    congr 1
    push_cast
    field_simp
    ring_nf

/-- C5, amended: the one-decimal averages equal the exact mean rounded
half away from zero to one decimal (represented in tenths), while the
rows-sent and rows-examined averages equal the floor of the mean — the
result of the Python 2 integer division at lines 442-443 — and not the
nearest integer. -/
theorem claim_C5_amended (users : UserMap) (st : FinalStats)
    (h : finalizeQuery users = .ok st) :
    st.avg_rows_sent
      = ⌊(st.sum_rows_sent : ℚ) / (st.execution_count : ℚ)⌋
    ∧ st.avg_rows_examined
      = ⌊(st.sum_rows_examined : ℚ) / (st.execution_count : ℚ)⌋
    ∧ st.avg_query_time_tenths
      = roundHalfAwayTenths ((st.sum_query_time : ℚ) / (st.execution_count : ℚ))
    ∧ st.avg_lock_time_tenths
      = roundHalfAwayTenths ((st.sum_lock_time : ℚ) / (st.execution_count : ℚ))
    ∧ 1 ≤ st.execution_count := by
  unfold finalizeQuery at h
  cases hs : stepUsers {} (users.insertionSort userOrd) with
  | error e => rw [hs] at h; exact absurd h (by simp [Bind.bind, Except.bind])
  | ok acc =>
    rw [hs] at h
    simp only [Bind.bind, Except.bind] at h
    by_cases hzero : (acc.execution_count : Int) = 0
    · rw [if_pos hzero] at h; exact absurd h (by simp)
    · rw [if_neg hzero] at h
      have hst := (Except.ok.injEq _ _).mp h
      subst hst
      have hcpos : 0 < (acc.execution_count : Int) :=
        lt_of_le_of_ne (Int.ofNat_nonneg _) (Ne.symm hzero)
      have hcast : ((acc.execution_count : ℕ) : ℚ)
          = (((acc.execution_count : ℕ) : ℤ) : ℚ) := by push_cast; rfl
      refine ⟨?_, ?_, ?_, ?_, ?_⟩
      · show pyAvgFloor acc.sum_rows_sent (acc.execution_count : Int) = _
        rw [pyAvgFloor, fdiv_eq_floor_ratCast _ _ hcpos]
        rw [hcast]
      · show pyAvgFloor acc.sum_rows_examined (acc.execution_count : Int) = _
        rw [pyAvgFloor, fdiv_eq_floor_ratCast _ _ hcpos]
        rw [hcast]
      · show pyRound1 acc.sum_query_time (acc.execution_count : Int) = _
        rw [pyRound1_eq_roundHalfAwayTenths _ _ hcpos, hcast]
      · show pyRound1 acc.sum_lock_time (acc.execution_count : Int) = _
        rw [pyRound1_eq_roundHalfAwayTenths _ _ hcpos, hcast]
      · show 1 ≤ acc.execution_count
        have hne : acc.execution_count ≠ 0 := by exact_mod_cast hzero
        omega

/-- Witness for claim_C5_amended at the concrete two-occurrence group:
the floor average and the tenths average are reproduced. -/
theorem claim_C5_witness :
    finalizeQuery usersC5 = .ok statsC5
    ∧ statsC5.avg_rows_sent
      = ⌊(statsC5.sum_rows_sent : ℚ) / (statsC5.execution_count : ℚ)⌋
    ∧ statsC5.avg_query_time_tenths
      = roundHalfAwayTenths
          ((statsC5.sum_query_time : ℚ) / (statsC5.execution_count : ℚ)) :=
  ⟨rfl, (claim_C5_amended usersC5 statsC5 rfl).1,
    (claim_C5_amended usersC5 statsC5 rfl).2.2.1⟩

theorem hasTs_cons (k : PyTS) (v : List Int) (m : TsMap) (ts : PyTS) :
    hasTs ((k, v) :: m) ts = (decide (k = ts) || hasTs m ts) := by
  simp [hasTs]

theorem hasUserTs_cons (k : List Char) (v : TsMap) (m : UserMap)
    (user : List Char) (ts : PyTS) :
    hasUserTs ((k, v) :: m) user ts
      = ((decide (k = user) && hasTs v ts) || hasUserTs m user ts) := by
  simp [hasUserTs]

theorem hasTriple_cons (k : List Char) (v : UserMap) (m : QueriesMap)
    (q user : List Char) (ts : PyTS) :
    hasTriple ((k, v) :: m) q user ts
      = ((decide (k = q) && hasUserTs v user ts) || hasTriple m q user ts) := by
  simp [hasTriple]

theorem userEntryCount_cons (k : List Char) (v : TsMap) (m : UserMap) :
    userEntryCount ((k, v) :: m) = v.length + userEntryCount m := by
  simp [userEntryCount]

theorem storedCount_cons (k : List Char) (v : UserMap) (m : QueriesMap) :
    storedCount ((k, v) :: m) = userEntryCount v + storedCount m := by
  simp [storedCount, userEntryCount]

theorem hasUserTs_false_of_not_key (user : List Char) (ts : PyTS) :
    ∀ m : UserMap, hasKeyU m user = false → hasUserTs m user ts = false
  | [] => by simp [hasUserTs]
  | (k, v) :: rest => by
    intro h
    simp only [hasKeyU, List.any_cons, Bool.or_eq_false_iff] at h
    rw [hasUserTs_cons, h.1, Bool.false_and, Bool.false_or]
    exact hasUserTs_false_of_not_key user ts rest (by simp [hasKeyU, h.2])

theorem hasTriple_false_of_not_key (q user : List Char) (ts : PyTS) :
    ∀ qs : QueriesMap, hasKeyQ qs q = false → hasTriple qs q user ts = false
  | [] => by simp [hasTriple]
  | (k, v) :: rest => by
    intro h
    simp only [hasKeyQ, List.any_cons, Bool.or_eq_false_iff] at h
    rw [hasTriple_cons, h.1, Bool.false_and, Bool.false_or]
    exact hasTriple_false_of_not_key q user ts rest (by simp [hasKeyQ, h.2])

theorem hasKeyU_eq_mem (m : UserMap) (u : List Char) :
    hasKeyU m u = true ↔ u ∈ m.map Prod.fst := by
  simp only [hasKeyU, List.any_eq_true, List.mem_map, decide_eq_true_eq]

theorem hasKeyQ_eq_mem (qs : QueriesMap) (q : List Char) :
    hasKeyQ qs q = true ↔ q ∈ qs.map Prod.fst := by
  simp only [hasKeyQ, List.any_eq_true, List.mem_map, decide_eq_true_eq]

theorem updTs_length (ts : PyTS) (qt : List Int) :
    ∀ m : TsMap,
      (updTs m ts qt).length = m.length + (if hasTs m ts then 0 else 1)
  | [] => by simp [updTs, hasTs]
  | (k, v) :: rest => by
    rw [hasTs_cons]
    simp only [updTs]
    by_cases hk : k = ts
    · have hd : decide (k = ts) = true := by simp [hk]
      rw [if_pos hk, hd, Bool.true_or]
      simp
    · have hd : decide (k = ts) = false := by simp [hk]
      rw [if_neg hk, hd, Bool.false_or, List.length_cons, List.length_cons,
        updTs_length ts qt rest]
      cases hX : hasTs rest ts <;> simp [hX]

theorem hasTs_updTs (ts' : PyTS) (qt : List Int) (ts : PyTS) :
    ∀ m : TsMap,
      (hasTs (updTs m ts' qt) ts = true ↔ (hasTs m ts = true ∨ ts = ts'))
  | [] => by
    simp [updTs, hasTs]
    exact comm
  | (k, v) :: rest => by
    simp only [updTs]
    by_cases hk : k = ts'
    · rw [if_pos hk, hasTs_cons, hasTs_cons]
      subst hk
      simp only [Bool.or_eq_true, decide_eq_true_eq]
      constructor
      · rintro (h | h)
        · exact Or.inl (Or.inl h)
        · exact Or.inl (Or.inr h)
      · rintro ((h | h) | h)
        · exact Or.inl h
        · exact Or.inr h
        · exact Or.inl h.symm
    · rw [if_neg hk, hasTs_cons, hasTs_cons]
      simp only [Bool.or_eq_true, decide_eq_true_eq]
      rw [hasTs_updTs ts' qt ts rest]
      exact (or_assoc).symm

theorem updUser_keys (user : List Char) (ts : PyTS) (qt : List Int) :
    ∀ m : UserMap,
      (updUser m user ts qt).map Prod.fst
        = (if hasKeyU m user then m.map Prod.fst
           else m.map Prod.fst ++ [user])
  | [] => by simp [updUser, hasKeyU]
  | (k, v) :: rest => by
    simp only [updUser, hasKeyU, List.any_cons]
    by_cases hk : k = user
    · have hd : decide (k = user) = true := by simp [hk]
      rw [if_pos hk]
      simp [hd]
    · have hd : decide (k = user) = false := by simp [hk]
      rw [if_neg hk]
      simp only [hd, Bool.false_or, List.map_cons]
      rw [updUser_keys user ts qt rest]
      simp only [hasKeyU]
      by_cases hX : (rest.any fun p => decide (p.1 = user)) = true
      · rw [if_pos hX, if_pos hX]
      · rw [if_neg hX, if_neg hX]
        simp

theorem processQueryAgg_keys (q user : List Char) (ts : PyTS)
    (qt : List Int) :
    ∀ qs : QueriesMap,
      (processQueryAgg qs q user ts qt).map Prod.fst
        = (if hasKeyQ qs q then qs.map Prod.fst
           else qs.map Prod.fst ++ [q])
  | [] => by simp [processQueryAgg, hasKeyQ]
  | (k, v) :: rest => by
    simp only [processQueryAgg, hasKeyQ, List.any_cons]
    by_cases hk : k = q
    · have hd : decide (k = q) = true := by simp [hk]
      rw [if_pos hk]
      simp [hd]
    · have hd : decide (k = q) = false := by simp [hk]
      rw [if_neg hk]
      simp only [hd, Bool.false_or, List.map_cons]
      rw [processQueryAgg_keys q user ts qt rest]
      simp only [hasKeyQ]
      by_cases hX : (rest.any fun p => decide (p.1 = q)) = true
      · rw [if_pos hX, if_pos hX]
      · rw [if_neg hX, if_neg hX]
        simp

theorem updUser_keys_nodup (user : List Char) (ts : PyTS) (qt : List Int)
    (m : UserMap) (h : (m.map Prod.fst).Nodup) :
    ((updUser m user ts qt).map Prod.fst).Nodup := by
  rw [updUser_keys]
  by_cases hX : hasKeyU m user = true
  · rw [if_pos hX]
    exact h
  · rw [if_neg hX]
    rw [List.nodup_append]
    refine ⟨h, List.nodup_singleton user, ?_⟩
    intro a ha hb
    simp at hb
    subst hb
    exact absurd ((hasKeyU_eq_mem m a).mpr ha) hX

theorem wfStore_processQueryAgg (q user : List Char) (ts : PyTS)
    (qt : List Int) (qs : QueriesMap) (h : wfStore qs) :
    wfStore (processQueryAgg qs q user ts qt) := by
  constructor
  · rw [processQueryAgg_keys]
    by_cases hX : hasKeyQ qs q = true
    · rw [if_pos hX]
      exact h.1
    · rw [if_neg hX]
      rw [List.nodup_append]
      refine ⟨h.1, List.nodup_singleton q, ?_⟩
      intro a ha hb
      simp at hb
      subst hb
      exact absurd ((hasKeyQ_eq_mem qs a).mpr ha) hX
  · intro p hp
    induction qs with
    | nil =>
      simp [processQueryAgg] at hp
      subst hp
      simp
    | cons hd tl ih =>
      obtain ⟨k, v⟩ := hd
      simp only [processQueryAgg] at hp
      by_cases hk : k = q
      · rw [if_pos hk] at hp
        rcases List.mem_cons.mp hp with h1 | h1
        · subst h1
          exact updUser_keys_nodup user ts qt v
            (h.2 (k, v) (List.mem_cons_self _ _))
        · exact h.2 p (List.mem_cons_of_mem _ h1)
      · rw [if_neg hk] at hp
        rcases List.mem_cons.mp hp with h1 | h1
        · subst h1
          exact h.2 (k, v) (List.mem_cons_self _ _)
        · exact ih ⟨(List.nodup_cons.mp h.1).2,
            fun r hr => h.2 r (List.mem_cons_of_mem _ hr)⟩ h1

theorem wfStore_aggregateAll (rs : List AggInput) :
    wfStore (aggregateAll rs) := by
  suffices hgen : ∀ qs, wfStore qs →
      wfStore (rs.foldl
        (fun acc r => processQueryAgg acc r.query r.user r.ts r.qt) qs) by
    exact hgen [] (by constructor <;> simp)
  induction rs with
  | nil => exact fun qs h => h
  | cons r rest ih =>
    intro qs h
    exact ih _ (wfStore_processQueryAgg r.query r.user r.ts r.qt qs h)

theorem updUser_count (user : List Char) (ts : PyTS) (qt : List Int) :
    ∀ m : UserMap, (m.map Prod.fst).Nodup →
      userEntryCount (updUser m user ts qt)
        = userEntryCount m + (if hasUserTs m user ts then 0 else 1)
  | [] => by simp [updUser, userEntryCount, hasUserTs, updTs]
  | (k, v) :: rest => by
    intro hnd
    rw [List.map_cons] at hnd
    have hnd1 := (List.nodup_cons.mp hnd).1
    have hnd2 := (List.nodup_cons.mp hnd).2
    rw [hasUserTs_cons]
    simp only [updUser]
    by_cases hk : k = user
    · rw [if_pos hk]
      subst hk
      rw [userEntryCount_cons, userEntryCount_cons, updTs_length ts qt v]
      have hrest : hasUserTs rest k ts = false := by
        refine hasUserTs_false_of_not_key k ts rest ?_
        cases hX : hasKeyU rest k with
        | false => rfl
        | true => exact absurd ((hasKeyU_eq_mem rest k).mp hX) hnd1
      rw [hrest, Bool.or_false]
      have hcond : (decide (k = k) && hasTs v ts) = hasTs v ts := by simp
      rw [hcond]
      cases hX : hasTs v ts
      · omega
      · omega
    · rw [if_neg hk]
      rw [userEntryCount_cons, userEntryCount_cons,
        updUser_count user ts qt rest hnd2]
      have hcond : (decide (k = user) && hasTs v ts) = false := by simp [hk]
      rw [hcond, Bool.false_or]
      cases hX : hasUserTs rest user ts
      · omega
      · omega

theorem storedCount_processQueryAgg (q user : List Char) (ts : PyTS)
    (qt : List Int) :
    ∀ qs : QueriesMap, wfStore qs →
      storedCount (processQueryAgg qs q user ts qt)
        = storedCount qs + (if hasTriple qs q user ts then 0 else 1)
  | [] => by simp [processQueryAgg, storedCount, hasTriple, userEntryCount,
      updTs]
  | (k, v) :: rest => by
    intro hwf
    have hnd : (List.map Prod.fst ((k, v) :: rest)).Nodup := hwf.1
    rw [List.map_cons] at hnd
    have hnd1 := (List.nodup_cons.mp hnd).1
    have hnd2 := (List.nodup_cons.mp hnd).2
    rw [hasTriple_cons]
    simp only [processQueryAgg]
    by_cases hk : k = q
    · rw [if_pos hk]
      subst hk
      rw [storedCount_cons, storedCount_cons,
        updUser_count user ts qt v (hwf.2 (k, v) (List.mem_cons_self _ _))]
      have hrest : hasTriple rest k user ts = false := by
        refine hasTriple_false_of_not_key k user ts rest ?_
        cases hX : hasKeyQ rest k with
        | false => rfl
        | true => exact absurd ((hasKeyQ_eq_mem rest k).mp hX) hnd1
      rw [hrest, Bool.or_false]
      have hcond : (decide (k = k) && hasUserTs v user ts)
          = hasUserTs v user ts := by simp
      rw [hcond]
      cases hX : hasUserTs v user ts
      · omega
      · omega
    · rw [if_neg hk]
      rw [storedCount_cons, storedCount_cons,
        storedCount_processQueryAgg q user ts qt rest
          ⟨hnd2, fun r hr => hwf.2 r (List.mem_cons_of_mem _ hr)⟩]
      have hcond : (decide (k = q) && hasUserTs v user ts) = false := by
        simp [hk]
      rw [hcond, Bool.false_or]
      cases hX : hasTriple rest q user ts
      · omega
      · omega

theorem hasUserTs_updUser (user' : List Char) (ts' : PyTS) (qt : List Int)
    (user : List Char) (ts : PyTS) :
    ∀ m : UserMap,
      (hasUserTs (updUser m user' ts' qt) user ts = true
        ↔ (hasUserTs m user ts = true ∨ (user = user' ∧ ts = ts')))
  | [] => by
    simp [updUser, hasUserTs, hasTs, updTs]
    constructor
    · rintro ⟨h1, h2⟩
      exact ⟨h1.symm, h2.symm⟩
    · rintro ⟨h1, h2⟩
      exact ⟨h1.symm, h2.symm⟩
  | (k, v) :: rest => by
    simp only [updUser]
    by_cases hk : k = user'
    · rw [if_pos hk, hasUserTs_cons, hasUserTs_cons]
      subst hk
      simp only [Bool.or_eq_true, Bool.and_eq_true, decide_eq_true_eq]
      rw [hasTs_updTs ts' qt ts v]
      by_cases hku : k = user
      · subst hku
        constructor
        · rintro (⟨-, h | h⟩ | h)
          · exact Or.inl (Or.inl ⟨rfl, h⟩)
          · exact Or.inr ⟨rfl, h⟩
          · exact Or.inl (Or.inr h)
        · rintro ((⟨-, h⟩ | h) | ⟨-, h⟩)
          · exact Or.inl ⟨rfl, Or.inl h⟩
          · exact Or.inr h
          · exact Or.inl ⟨rfl, Or.inr h⟩
      · constructor
        · rintro (⟨h, -⟩ | h)
          · exact absurd h hku
          · exact Or.inl (Or.inr h)
        · rintro ((⟨h, -⟩ | h) | ⟨h, -⟩)
          · exact absurd h hku
          · exact Or.inr h
          · exact absurd h.symm hku
    · rw [if_neg hk, hasUserTs_cons, hasUserTs_cons]
      simp only [Bool.or_eq_true, Bool.and_eq_true, decide_eq_true_eq]
      rw [hasUserTs_updUser user' ts' qt user ts rest]
      tauto

theorem hasTriple_processQueryAgg (q' user' : List Char) (ts' : PyTS)
    (qt : List Int) (q user : List Char) (ts : PyTS) :
    ∀ qs : QueriesMap,
      (hasTriple (processQueryAgg qs q' user' ts' qt) q user ts = true
        ↔ (hasTriple qs q user ts = true
            ∨ (q = q' ∧ user = user' ∧ ts = ts')))
  | [] => by
    simp [processQueryAgg, hasTriple, hasUserTs, hasTs, updTs]
    constructor
    · rintro ⟨h1, h2, h3⟩
      exact ⟨h1.symm, h2.symm, h3.symm⟩
    · rintro ⟨h1, h2, h3⟩
      exact ⟨h1.symm, h2.symm, h3.symm⟩
  | (k, v) :: rest => by
    simp only [processQueryAgg]
    by_cases hk : k = q'
    · rw [if_pos hk, hasTriple_cons, hasTriple_cons]
      subst hk
      simp only [Bool.or_eq_true, Bool.and_eq_true, decide_eq_true_eq]
      rw [hasUserTs_updUser user' ts' qt user ts v]
      by_cases hkq : k = q
      · subst hkq
        constructor
        · rintro (⟨-, h | h⟩ | h)
          · exact Or.inl (Or.inl ⟨rfl, h⟩)
          · exact Or.inr ⟨rfl, h⟩
          · exact Or.inl (Or.inr h)
        · rintro ((⟨-, h⟩ | h) | ⟨-, h⟩)
          · exact Or.inl ⟨rfl, Or.inl h⟩
          · exact Or.inr h
          · exact Or.inl ⟨rfl, Or.inr h⟩
      · constructor
        · rintro (⟨h, -⟩ | h)
          · exact absurd h hkq
          · exact Or.inl (Or.inr h)
        · rintro ((⟨h, -⟩ | h) | ⟨h, -⟩)
          · exact absurd h hkq
          · exact Or.inr h
          · exact absurd h.symm hkq
    · rw [if_neg hk, hasTriple_cons, hasTriple_cons]
      simp only [Bool.or_eq_true, Bool.and_eq_true, decide_eq_true_eq]
      rw [hasTriple_processQueryAgg q' user' ts' qt q user ts rest]
      tauto

theorem aggregateAll_snoc (rs : List AggInput) (r : AggInput) :
    aggregateAll (rs ++ [r])
      = processQueryAgg (aggregateAll rs) r.query r.user r.ts r.qt := by
  unfold aggregateAll
  rw [List.foldl_append]
  rfl

theorem hasTriple_aggregateAll (rs : List AggInput) (q user : List Char)
    (ts : PyTS) :
    hasTriple (aggregateAll rs) q user ts = true
      ↔ (q, user, ts) ∈ rs.map keyOf := by
  induction rs using List.reverseRecOn with
  | nil => simp [aggregateAll, hasTriple]
  | append_singleton rs r ih =>
    rw [aggregateAll_snoc]
    rw [hasTriple_processQueryAgg r.query r.user r.ts r.qt q user ts _]
    rw [ih]
    simp [keyOf, Prod.ext_iff]

theorem storedCount_eq_card (rs : List AggInput) :
    storedCount (aggregateAll rs) = (rs.map keyOf).toFinset.card := by
  induction rs using List.reverseRecOn with
  | nil => simp [aggregateAll, storedCount]
  | append_singleton rs r ih =>
    rw [aggregateAll_snoc]
    rw [storedCount_processQueryAgg r.query r.user r.ts r.qt _
      (wfStore_aggregateAll rs)]
    rw [ih]
    rw [List.map_append, List.map_cons, List.map_nil]
    rw [show ((rs.map keyOf) ++ [keyOf r]).toFinset
        = insert (keyOf r) (rs.map keyOf).toFinset by
      rw [List.toFinset_append]
      rw [Finset.union_comm]
      simp [← Finset.insert_eq]]
    by_cases hmem : keyOf r ∈ (rs.map keyOf).toFinset
    · rw [Finset.card_insert_of_mem hmem]
      have hht : hasTriple (aggregateAll rs) r.query r.user r.ts = true := by
        rw [hasTriple_aggregateAll]
        simpa [keyOf] using List.mem_toFinset.mp hmem
      rw [hht]
      simp
    · rw [Finset.card_insert_of_not_mem hmem]
      have hht : hasTriple (aggregateAll rs) r.query r.user r.ts = false := by
        cases h2 : hasTriple (aggregateAll rs) r.query r.user r.ts
        · rfl
        · exact absurd (List.mem_toFinset.mpr
            ((hasTriple_aggregateAll rs r.query r.user r.ts).mp h2)) hmem
      rw [hht]
      simp

theorem stepEntry_count (acc : AggAcc) (seen : List (List Int)) (ts : PyTS)
    (qt : List Int) (acc2 : AggAcc) (seen2 : List (List Int))
    (h : stepEntry acc seen ts qt = .ok (acc2, seen2)) :
    acc2.execution_count = acc.execution_count + 1 := by
  cases ts with
  | fls => simp [stepEntry] at h
  | str s =>
    cases hg : getLogTimestamp s with
    | none => simp [stepEntry, hg] at h
    | some t =>
      rcases qt with _ | ⟨a, _ | ⟨b, _ | ⟨c, _ | ⟨d, rest⟩⟩⟩⟩
      · simp [stepEntry, hg] at h
      · simp [stepEntry, hg] at h
      · simp [stepEntry, hg] at h
      · simp [stepEntry, hg] at h
      · simp only [stepEntry, hg] at h
        have hx := (Except.ok.injEq _ _).mp h
        have hx1 := congrArg Prod.fst hx
        simp only at hx1
        rw [← hx1]
        show (_ : AggAcc).execution_count + 1 = _
        congr 1
        by_cases hmem : (a :: b :: c :: d :: rest) ∈ seen <;>
          simp only [if_pos, if_neg, hmem, if_true, if_false] <;>
          (split <;> first | rfl | (split <;> rfl))

theorem stepEntries_count (m : TsMap) :
    ∀ (acc : AggAcc) (seen : List (List Int)) (acc2 : AggAcc)
      (seen2 : List (List Int)),
      stepEntries acc seen m = .ok (acc2, seen2) →
      acc2.execution_count = acc.execution_count + m.length := by
  induction m with
  | nil =>
    intro acc seen acc2 seen2 h
    simp only [stepEntries] at h
    have hx := (Except.ok.injEq _ _).mp h
    injection hx with h1 h2
    rw [← h1]
    simp
  | cons p rest ih =>
    intro acc seen acc2 seen2 h
    obtain ⟨ts, qt⟩ := p
    simp only [stepEntries] at h
    cases h1 : stepEntry acc seen ts qt with
    | error e => rw [h1] at h; exact absurd h (by simp [Bind.bind, Except.bind])
    | ok p1 =>
      rw [h1] at h
      simp only [Bind.bind, Except.bind] at h
      have := ih p1.1 p1.2 acc2 seen2 (by
        cases p1
        exact h)
      rw [this, stepEntry_count acc seen ts qt p1.1 p1.2 (by
        cases p1
        exact h1)]
      simp only [List.length_cons]
      omega

theorem stepUsers_count (us : List (List Char × TsMap)) :
    ∀ (acc acc2 : AggAcc), stepUsers acc us = .ok acc2 →
      acc2.execution_count
        = acc.execution_count + (us.map (fun u => u.2.length)).sum := by
  induction us with
  | nil =>
    intro acc acc2 h
    simp only [stepUsers] at h
    rw [← (Except.ok.injEq _ _).mp h]
    simp
  | cons p rest ih =>
    intro acc acc2 h
    obtain ⟨u, tsm⟩ := p
    simp only [stepUsers] at h
    cases h1 : stepEntries acc [] tsm with
    | error e => rw [h1] at h; exact absurd h (by simp [Bind.bind, Except.bind])
    | ok p1 =>
      rw [h1] at h
      simp only [Bind.bind, Except.bind] at h
      have h2 := ih p1.1 acc2 h
      rw [h2, stepEntries_count tsm acc [] p1.1 p1.2 (by
        cases p1
        exact h1)]
      simp only [List.map_cons, List.sum_cons]
      omega

theorem finalizeQuery_execution_count (users : UserMap) (st : FinalStats)
    (h : finalizeQuery users = .ok st) :
    st.execution_count = (users.map (fun u => u.2.length)).sum := by
  unfold finalizeQuery at h
  cases hs : stepUsers {} (users.insertionSort userOrd) with
  | error e => rw [hs] at h; exact absurd h (by simp [Bind.bind, Except.bind])
  | ok acc =>
    rw [hs] at h
    simp only [Bind.bind, Except.bind] at h
    by_cases hzero : (acc.execution_count : Int) = 0
    · rw [if_pos hzero] at h; exact absurd h (by simp)
    · rw [if_neg hzero] at h
      have hst := (Except.ok.injEq _ _).mp h
      subst hst
      show acc.execution_count = _
      have hcount := stepUsers_count (users.insertionSort userOrd) {} acc hs
      rw [hcount]
      have hperm : ((users.insertionSort userOrd).map
            (fun u => u.2.length)).Perm (users.map (fun u => u.2.length)) :=
        (List.perm_insertionSort userOrd users).map _
      rw [hperm.sum_eq]
      simp

/-- C3, amended: the no-duplicates store counts one occurrence per
distinct (query, user, timestamp) triple of the accepted records — not
one per record, since identical triples overwrite each other — and the
execution count reported by finalize is exactly the number of stored
occurrence entries of the group.  The final two conjuncts check the
documented scenario: two records with the same query text, user and
counter tuple but different timestamps yield execution count 2, sums
twice the single value and a tenths average equal to the value. -/
theorem claim_C3_amended :
    (∀ rs : List AggInput,
      storedCount (aggregateAll rs) = (rs.map keyOf).toFinset.card)
    ∧ (∀ (users : UserMap) (st : FinalStats), finalizeQuery users = .ok st →
        st.execution_count = (users.map (fun u => u.2.length)).sum)
    ∧ ((aggregateAll [aggRecA, aggRecB]).map
        (fun qu => (finalizeQuery qu.2).map
          (fun st => (st.execution_count, st.sum_query_time,
            st.sum_lock_time, st.sum_rows_sent, st.sum_rows_examined,
            st.avg_query_time_tenths))))
      = [.ok (2, 6, 2, 4, 14, 30)]
    ∧ (aggregateAll [aggRecA, aggRecB]).map
        (fun qu => qu.2.map (fun u => u.2.length)) = [[2]] :=
  ⟨storedCount_eq_card, finalizeQuery_execution_count, rfl, rfl⟩

/-- Witness for claim_C3_amended: the finalize hypothesis discharged at
the concrete group of usersC5. -/
theorem claim_C3_witness :
    statsC5.execution_count = (usersC5.map (fun u => u.2.length)).sum :=
  claim_C3_amended.2.1 usersC5 statsC5 rfl

theorem pyCmp_neg (x y : Int) : pyCmp x y = -pyCmp y x := by
  unfold pyCmp
  split_ifs <;> omega

theorem cmpQueries_le_iff (ns : List Nat) (a b : FinalStats) :
    cmpQueries ns a b ≤ 0 ↔ specKeyOrder ns a b := by
  induction ns with
  | nil => simp [cmpQueries, specKeyOrder]
  | cons i rest ih =>
    by_cases heq : statAt a i = statAt b i
    · rw [show cmpQueries (i :: rest) a b = cmpQueries rest a b from by
        simp [cmpQueries, heq]]
      unfold specKeyOrder
      rw [ih]
      constructor
      · intro h
        exact Or.inr ⟨heq, h⟩
      · rintro (h | ⟨-, h⟩)
        · exact absurd heq (by omega)
        · exact h
    · rw [show cmpQueries (i :: rest) a b
          = -1 * pyCmp (statAt a i) (statAt b i) from by
        simp [cmpQueries, heq]]
      unfold specKeyOrder
      constructor
      · intro h
        left
        unfold pyCmp at h
        split_ifs at h <;> omega
      · rintro (h | ⟨h, -⟩)
        · unfold pyCmp
          split_ifs <;> omega
        · exact absurd h heq

theorem specKeyOrder_total (ns : List Nat) (a b : FinalStats) :
    specKeyOrder ns a b ∨ specKeyOrder ns b a := by
  induction ns with
  | nil => exact Or.inl trivial
  | cons i rest ih =>
    unfold specKeyOrder
    rcases lt_trichotomy (statAt a i) (statAt b i) with h | h | h
    · exact Or.inr (Or.inl h)
    · rcases ih with h2 | h2
      · exact Or.inl (Or.inr ⟨h, h2⟩)
      · exact Or.inr (Or.inr ⟨h.symm, h2⟩)
    · exact Or.inl (Or.inl h)

theorem specKeyOrder_trans (ns : List Nat) (a b c : FinalStats)
    (hab : specKeyOrder ns a b) (hbc : specKeyOrder ns b c) :
    specKeyOrder ns a c := by
  induction ns with
  | nil => exact trivial
  | cons i rest ih =>
    unfold specKeyOrder at hab hbc ⊢
    rcases hab with h1 | ⟨h1, h1r⟩
    · rcases hbc with h2 | ⟨h2, -⟩
      · exact Or.inl (h2.trans h1)
      · exact Or.inl (h2 ▸ h1)
    · rcases hbc with h2 | ⟨h2, h2r⟩
      · exact Or.inl (by omega)
      · exact Or.inr ⟨h1.trans h2, ih h1r h2r⟩

theorem foldl_add_if_new_mem (l : List Nat) :
    ∀ (acc : List Nat) (i : Nat), (i ∈ acc ∨ i ∈ l) →
      i ∈ l.foldl (fun a x => if x ∈ a then a else a ++ [x]) acc := by
  induction l with
  | nil =>
    intro acc i h
    simpa using h.resolve_right (by simp)
  | cons x rest ih =>
    intro acc i h
    simp only [List.foldl_cons]
    apply ih
    by_cases hx : x ∈ acc
    · rw [if_pos hx]
      rcases h with h | h
      · exact Or.inl h
      · rcases List.mem_cons.mp h with rfl | h
        · exact Or.inl hx
        · exact Or.inr h
    · rw [if_neg hx]
      rcases h with h | h
      · exact Or.inl (List.mem_append_left _ h)
      · rcases List.mem_cons.mp h with rfl | h
        · exact Or.inl (List.mem_append_right _ (by simp))
        · exact Or.inr h

theorem mem_completeSorting (ns : List Nat) (i : Nat)
    (h : i ∈ defaultSortIndices) : i ∈ completeSorting ns :=
  foldl_add_if_new_mem _ ns i (Or.inr (List.mem_append_left _ h))

theorem resultOrd_total (ns : List Nat)
    (a b : List Char × FinalStats) : resultOrd ns a b ∨ resultOrd ns b a := by
  rcases specKeyOrder_total ns a.2 b.2 with h | h
  · exact Or.inl ((cmpQueries_le_iff _ _ _).mpr h)
  · exact Or.inr ((cmpQueries_le_iff _ _ _).mpr h)

theorem resultOrd_trans (ns : List Nat) (a b c : List Char × FinalStats)
    (hab : resultOrd ns a b) (hbc : resultOrd ns b c) : resultOrd ns a c :=
  (cmpQueries_le_iff _ _ _).mpr
    (specKeyOrder_trans _ _ _ _
      ((cmpQueries_le_iff _ _ _).mp hab)
      ((cmpQueries_le_iff _ _ _).mp hbc))

theorem sortedResults_pairwise (ns : List Nat)
    (xs : List (List Char × FinalStats)) :
    List.Pairwise (fun a b => specKeyOrder ns a.2 b.2)
      (xs.insertionSort (resultOrd ns)) :=
  (@List.sorted_insertionSort _ (resultOrd ns) _
    ⟨resultOrd_total ns⟩ ⟨resultOrd_trans ns⟩ xs).imp
    (fun hab => (cmpQueries_le_iff _ _ _).mp hab)

/-- C10: the no-duplicates output stage emits a truncation of a sorted
permutation of the aggregated results: a stable sort under the
comparator derived from cmp_queries over the completed key list, which
orders any two results by the first key on which they differ, larger
value first; a positive top emits the first top results of that order
(all of them when fewer exist), top zero emits all; and the completed
key list always contains all thirteen default sort keys. -/
theorem claim_C10_sort_order_and_truncation (ns : List Nat) (top : Nat)
    (xs : List (List Char × FinalStats)) :
    ∃ ss : List (List Char × FinalStats),
      ss.Perm xs
      ∧ List.Pairwise
          (fun a b => specKeyOrder (completeSorting ns) a.2 b.2) ss
      ∧ sortedResults (completeSorting ns) top xs
        = (if top = 0 then ss else ss.take top)
      ∧ List.Pairwise
          (fun a b => specKeyOrder (completeSorting ns) a.2 b.2)
          (sortedResults (completeSorting ns) top xs)
      ∧ (∀ i ∈ defaultSortIndices, i ∈ completeSorting ns) := by
  have hpair := sortedResults_pairwise (completeSorting ns) xs
  refine ⟨xs.insertionSort (resultOrd (completeSorting ns)),
    List.perm_insertionSort _ xs, hpair, rfl, ?_, fun i hi =>
      mem_completeSorting ns i hi⟩
  unfold sortedResults
  by_cases htop : top = 0
  · rw [if_pos htop]
    exact hpair
  · rw [if_neg htop]
    exact hpair.sublist (List.take_sublist _ _)

theorem digit_not_ws (c : Char) (h : c.isDigit = true) :
    c.isWhitespace = false := by
  cases hw : c.isWhitespace
  · rfl
  · exfalso
    simp only [Char.isWhitespace, Bool.or_eq_true, decide_eq_true_eq] at hw
    rcases hw with ((rfl | rfl) | rfl) | rfl <;> exact absurd h (by decide)

theorem digit_ne_of_lt (c x : Char) (h : c.isDigit = true)
    (hx : x.toNat < 48 ∨ 57 < x.toNat) : c ≠ x := by
  simp only [Char.isDigit] at h
  have h1 := (Bool.and_eq_true _ _).mp h
  have h2 : 48 ≤ c.toNat := of_decide_eq_true h1.1
  have h3 : c.toNat ≤ 57 := of_decide_eq_true h1.2
  intro hc
  rw [hc] at h2 h3
  omega

theorem dropWhile_all_neg (p : Char → Bool) :
    ∀ l : List Char, (∀ x ∈ l, p x = false) → l.dropWhile p = l
  | [] => by simp
  | x :: xs => by
    intro h
    rw [List.dropWhile_cons, h x (by simp)]
    simp

theorem takeWhile_append_all (p : Char → Bool) :
    ∀ xs ys : List Char, (∀ x ∈ xs, p x = true) →
      (xs ++ ys).takeWhile p = xs ++ ys.takeWhile p
  | [], ys => by simp
  | x :: xs, ys => by
    intro h
    rw [List.cons_append, List.takeWhile_cons, h x (by simp)]
    rw [takeWhile_append_all p xs ys
      (fun y hy => h y (List.mem_cons_of_mem x hy))]
    simp

theorem dropWhile_append_head_neg (p : Char → Bool) (d : List Char)
    (hd : d ≠ []) (hdall : ∀ x ∈ d, p x = false) (w : List Char) :
    (d ++ w).dropWhile p = d ++ w := by
  obtain ⟨x, xs, rfl⟩ := List.exists_cons_of_ne_nil hd
  rw [List.cons_append, List.dropWhile_cons, hdall x (by simp)]
  simp

theorem splitCh_sep (c : Char) (ys : List Char) :
    splitCh c (c :: ys) = [] :: splitCh c ys := by
  simp [splitCh]

theorem splitCh_ne_nil (c : Char) : ∀ l : List Char, splitCh c l ≠ []
  | [] => by simp [splitCh]
  | x :: xs => by
    simp only [splitCh]
    by_cases hx : x = c
    · rw [if_pos hx]
      simp
    · rw [if_neg hx]
      cases hs : splitCh c xs with
      | nil => simp
      | cons y ys => simp

theorem splitCh_append (c : Char) :
    ∀ xs ys z zs, c ∉ xs → splitCh c ys = z :: zs →
      splitCh c (xs ++ ys) = (xs ++ z) :: zs
  | [], ys, z, zs => by
    intro _ hz
    simpa using hz
  | x :: xs, ys, z, zs => by
    intro hmem hz
    have hx : ¬ x = c := fun hc => hmem (by simp [hc])
    rw [List.cons_append]
    simp only [splitCh]
    rw [if_neg hx]
    rw [splitCh_append c xs ys z zs (fun hc => hmem (by simp [hc])) hz]
    simp

theorem splitCh_no_sep (c : Char) (xs : List Char) (h : c ∉ xs) :
    splitCh c xs = [xs] := by
  have := splitCh_append c xs [] [] [] h (by simp [splitCh])
  simpa using this

theorem colon_not_mem_digits (d : List Char)
    (hall : d.all Char.isDigit = true) : ':' ∉ d := by
  intro hmem
  have := (List.all_eq_true.mp hall) ':' hmem
  simp [Char.isDigit] at this

theorem firstWord_space_digits (d : List Char) (hd : d ≠ [])
    (hall : d.all Char.isDigit = true) (w : List Char) :
    firstWord (' ' :: (d ++ (' ' :: w))) = d := by
  unfold firstWord
  rw [List.dropWhile_cons]
  rw [if_pos (show (' '.isWhitespace) = true from rfl)]
  rw [dropWhile_append_head_neg _ d hd
    (fun x hx => digit_not_ws x ((List.all_eq_true.mp hall) x hx)) _]
  rw [takeWhile_append_all _ d (' ' :: w)
    (fun x hx => by
      rw [digit_not_ws x ((List.all_eq_true.mp hall) x hx)]
      rfl)]
  rw [List.takeWhile_cons]
  simp

theorem pyInt_digits (d : List Char) (hd : d ≠ [])
    (hall : d.all Char.isDigit = true) :
    pyInt d = some ((digitsToNat d : Int)) := by
  obtain ⟨x, xs, rfl⟩ := List.exists_cons_of_ne_nil hd
  have hxd : x.isDigit = true := by
    have := List.all_eq_true.mp hall x (by simp)
    exact this
  have h1 : (x :: xs).dropWhile Char.isWhitespace = x :: xs := by
    rw [List.dropWhile_cons, digit_not_ws x hxd]
    simp
  have h2 : (x :: xs).reverse.dropWhile Char.isWhitespace
      = (x :: xs).reverse := by
    apply dropWhile_all_neg
    intro y hy
    exact digit_not_ws y (List.all_eq_true.mp hall y (List.mem_reverse.mp hy))
  have hne1 : ¬ x = '-' := digit_ne_of_lt x '-' hxd (by decide)
  have hne2 : ¬ x = '+' := digit_ne_of_lt x '+' hxd (by decide)
  unfold pyInt
  simp only [h1, h2, List.reverse_reverse]
  rw [if_neg hne1, if_neg hne2]
  rw [if_pos ⟨by simp, hall⟩]
  simp

theorem pyInt_space_digits (d : List Char) (hd : d ≠ [])
    (hall : d.all Char.isDigit = true) :
    pyInt (' ' :: d) = some ((digitsToNat d : Int)) := by
  have hback : pyInt d = some ((digitsToNat d : Int)) :=
    pyInt_digits _ hd hall
  unfold pyInt at hback ⊢
  rw [List.dropWhile_cons]
  rw [if_pos (show (' '.isWhitespace) = true from rfl)]
  exact hback

theorem splitCh_chunk (d w rest : List Char) (hd : ':' ∉ d)
    (hw : ':' ∉ w) :
    splitCh ':' (' ' :: (d ++ (w ++ (':' :: rest))))
      = (' ' :: (d ++ w)) :: splitCh ':' rest := by
  have hxs : (':' : Char) ∉ ' ' :: (d ++ w) := by
    intro hmem
    rcases List.mem_cons.mp hmem with h | h
    · exact absurd h.symm (by decide)
    · rcases List.mem_append.mp h with h | h
      · exact hd h
      · exact hw h
  have hstep := splitCh_append ':' (' ' :: (d ++ w)) (':' :: rest) []
    (splitCh ':' rest) hxs (splitCh_sep ':' rest)
  rw [show ' ' :: (d ++ (w ++ (':' :: rest)))
      = (' ' :: (d ++ w)) ++ (':' :: rest) by simp]
  rw [hstep]
  simp

theorem splitCh_qtLine (r : RawRecord)
    (h0 : r.d0.all Char.isDigit = true)
    (h1 : r.d1.all Char.isDigit = true)
    (h2 : r.d2.all Char.isDigit = true)
    (h3 : r.d3.all Char.isDigit = true) :
    splitCh ':' ((qtLineOf r).drop 12)
      = [[], ' ' :: (r.d0 ++ lockText), ' ' :: (r.d1 ++ sentText),
         ' ' :: (r.d2 ++ examText), ' ' :: r.d3] := by
  have e0 : (qtLineOf r).drop 12
      = ':' :: ' ' :: (r.d0 ++ (lockText ++ (':' :: ' ' ::
          (r.d1 ++ (sentText ++ (':' :: ' ' ::
            (r.d2 ++ (examText ++ (':' :: ' ' :: r.d3))))))))) := rfl
  rw [e0, splitCh_sep]
  rw [splitCh_chunk r.d0 lockText _ (colon_not_mem_digits _ h0) (by decide)]
  rw [splitCh_chunk r.d1 sentText _ (colon_not_mem_digits _ h1) (by decide)]
  rw [splitCh_chunk r.d2 examText _ (colon_not_mem_digits _ h2) (by decide)]
  rw [splitCh_no_sep ':' (' ' :: r.d3) (by
    intro hmem
    rcases List.mem_cons.mp hmem with h | h
    · exact absurd h.symm (by decide)
    · exact colon_not_mem_digits _ h3 h)]

theorem parseCounter_chunk (d : List Char) (hd : d ≠ [])
    (hall : d.all Char.isDigit = true) (w : List Char) :
    parseCounter (' ' :: (d ++ (' ' :: w))) = .ok ((digitsToNat d : Int)) := by
  unfold parseCounter
  rw [firstWord_space_digits d hd hall w]
  rw [if_neg (by simp [hd])]
  rw [pyInt_digits d hd hall]

theorem getLogTimestamp_of_wf (r : RawRecord) (hwf : WFRecord r) :
    getLogTimestamp r.ts = some (tOf r) := by
  have h := hwf.ts_ok
  rw [Option.isSome_iff_exists] at h
  obtain ⟨t, ht⟩ := h
  rw [ht]
  unfold tOf
  rw [ht]
  rfl

theorem ts_ne_nil_of_wf (r : RawRecord) (hwf : WFRecord r) : r.ts ≠ [] := by
  intro hnil
  have h := hwf.ts_ok
  rw [hnil] at h
  exact absurd h (by decide)

theorem parseQueryTimeLine_qtLine (cfg : Config) (s : LoopState)
    (r : RawRecord) (hwf : WFRecord r) :
    parseQueryTimeLine cfg s (qtLineOf r)
      = .ok {s with query_time := [val0 r, val1 r, val2 r, val3 r],
                    in_query := thresholdPass cfg (val0 r) (val3 r)} := by
  have hsplit := splitCh_qtLine r hwf.d0_dig hwf.d1_dig hwf.d2_dig hwf.d3_dig
  have hc0 : parseCounter (' ' :: (r.d0 ++ lockText)) = .ok (val0 r) :=
    parseCounter_chunk r.d0 hwf.d0_ne hwf.d0_dig _
  have hc1 : parseCounter (' ' :: (r.d1 ++ sentText)) = .ok (val1 r) :=
    parseCounter_chunk r.d1 hwf.d1_ne hwf.d1_dig _
  have hc2 : parseCounter (' ' :: (r.d2 ++ examText)) = .ok (val2 r) :=
    parseCounter_chunk r.d2 hwf.d2_ne hwf.d2_dig _
  have hp3 : pyInt (' ' :: r.d3) = some (val3 r) :=
    pyInt_space_digits r.d3 hwf.d3_ne hwf.d3_dig
  unfold parseQueryTimeLine
  rw [hsplit]
  show (bind (parseCounter (' ' :: (r.d0 ++ lockText))) _ :
    Except String LoopState) = _
  rw [hc0]
  show (bind (parseCounter (' ' :: (r.d1 ++ sentText))) _ :
    Except String LoopState) = _
  rw [hc1]
  show (bind (parseCounter (' ' :: (r.d2 ++ examText))) _ :
    Except String LoopState) = _
  rw [hc2]
  rw [hp3]
  rfl

theorem runLines_cons (cfg : Config) (s s1 s2 : LoopState)
    (qs qs1 qs2 : QueriesMap) (e1 e2 : List Emitted) (l : List Char)
    (ls : List (List Char))
    (hstep : processLine cfg s qs l = .ok (s1, qs1, e1))
    (hrest : runLines cfg s1 qs1 ls = .ok (s2, qs2, e2)) :
    runLines cfg s qs (l :: ls) = .ok (s2, qs2, e1 ++ e2) := by
  show (bind (processLine cfg s qs l) _ :
    Except String (LoopState × QueriesMap × List Emitted)) = _
  rw [hstep]
  show (bind (runLines cfg s1 qs1 ls) _ :
    Except String (LoopState × QueriesMap × List Emitted)) = _
  rw [hrest]
  rfl

theorem runLines_cons_inv (cfg : Config) (s : LoopState) (qs : QueriesMap)
    (l : List Char) (ls : List (List Char))
    (out : LoopState × QueriesMap × List Emitted)
    (h : runLines cfg s qs (l :: ls) = .ok out) :
    ∃ s1 qs1 e1 s2 qs2 e2, processLine cfg s qs l = .ok (s1, qs1, e1)
      ∧ runLines cfg s1 qs1 ls = .ok (s2, qs2, e2)
      ∧ out = (s2, qs2, e1 ++ e2) := by
  cases hstep : processLine cfg s qs l with
  | error e =>
    have hrun : runLines cfg s qs (l :: ls) = .error e := by
      show (bind (processLine cfg s qs l) _ :
        Except String (LoopState × QueriesMap × List Emitted)) = _
      rw [hstep]
      rfl
    rw [hrun] at h
    exact absurd h (by simp)
  | ok p =>
    obtain ⟨s1, qs1, e1⟩ := p
    cases hrest : runLines cfg s1 qs1 ls with
    | error e =>
      have hrun : runLines cfg s qs (l :: ls) = .error e := by
        show (bind (processLine cfg s qs l) _ :
          Except String (LoopState × QueriesMap × List Emitted)) = _
        rw [hstep]
        show (bind (runLines cfg s1 qs1 ls) _ :
          Except String (LoopState × QueriesMap × List Emitted)) = _
        rw [hrest]
        rfl
      rw [hrun] at h
      exact absurd h (by simp)
    | ok p2 =>
      obtain ⟨s2, qs2, e2⟩ := p2
      have hrun := runLines_cons cfg s s1 s2 qs qs1 qs2 e1 e2 l ls hstep hrest
      rw [hrun] at h
      injection h with h
      exact ⟨s1, qs1, e1, s2, qs2, e2, rfl, hrest, h.symm⟩

theorem runLines_append (cfg : Config) (l1 l2 : List (List Char)) :
    ∀ (s s1 s2 : LoopState) (qs qs1 qs2 : QueriesMap) (e1 e2 : List Emitted),
      runLines cfg s qs l1 = .ok (s1, qs1, e1) →
      runLines cfg s1 qs1 l2 = .ok (s2, qs2, e2) →
      runLines cfg s qs (l1 ++ l2) = .ok (s2, qs2, e1 ++ e2) := by
  induction l1 with
  | nil =>
    intro s s1 s2 qs qs1 qs2 e1 e2 h1 h2
    have h0 : runLines cfg s qs [] = .ok (s, qs, []) := rfl
    rw [h0] at h1
    injection h1 with h1
    injection h1 with hs h1
    injection h1 with hq he
    rw [← hs, ← hq] at h2
    rw [← he]
    simpa using h2
  | cons l ls ih =>
    intro s s1 s2 qs qs1 qs2 e1 e2 h1 h2
    obtain ⟨sa, qsa, ea, sb, qsb, eb, hstep, hrest, hout⟩ :=
      runLines_cons_inv cfg s qs l ls _ h1
    injection hout with hs hout
    injection hout with hq he
    rw [hs, hq] at h2
    have hr := ih sa sb s2 qsa qsb qs2 eb e2 hrest h2
    have hall := runLines_cons cfg s sa s2 qs qsa qs2 ea (eb ++ e2) l
      (ls ++ l2) hstep hr
    rw [List.cons_append, hall, he]
    simp [List.append_assoc]

theorem runLines_skip_body (cfg : Config) (qs : QueriesMap)
    (ls : List (List Char)) :
    ∀ (s : LoopState), (∀ l ∈ ls, isMarker l = false) → s.in_query = false →
      runLines cfg s qs ls = .ok (s, qs, []) := by
  induction ls with
  | nil =>
    intro s hmk hin
    rfl
  | cons l ls ih =>
    intro s hmk hin
    have hstep : processLine cfg s qs l = .ok (s, qs, []) := by
      unfold processLine
      rw [if_neg (by simp [hmk l (by simp)]), if_neg (by simp [hin])]
    have hrest := ih s (fun x hx => hmk x (by simp [hx])) hin
    simpa using runLines_cons cfg s s s qs qs qs [] [] l ls hstep hrest

theorem runLines_body (cfg : Config) (qs : QueriesMap)
    (ls : List (List Char)) :
    ∀ (st : LoopState), (∀ l ∈ ls, isMarker l = false) →
      st.in_query = true →
      runLines cfg st qs ls
        = .ok ({st with query := st.query ++ ls.flatten}, qs, []) := by
  induction ls with
  | nil =>
    intro st hmk hin
    show Except.ok (st, qs, []) = _
    simp
  | cons l ls ih =>
    intro st hmk hin
    have hstep : processLine cfg st qs l
        = .ok ({st with query := st.query ++ l}, qs, []) := by
      unfold processLine
      rw [if_neg (by simp [hmk l (by simp)]), if_pos hin]
    have hrest := ih {st with query := st.query ++ l}
      (fun x hx => hmk x (by simp [hx])) hin
    have hall := runLines_cons cfg st _ _ qs qs qs [] [] l ls hstep hrest
    simpa [List.append_assoc] using hall

theorem processLine_tsLine (cfg : Config) (s s1 : LoopState)
    (qs qs1 : QueriesMap) (e1 : List Emitted) (r : RawRecord)
    (hwf : WFRecord r)
    (hflush : flushState cfg s qs = .ok (s1, qs1, e1)) :
    processLine cfg s qs (tsLineOf r)
      = if dateReject cfg (tOf r)
        then .ok ({s1 with timestamp := PyTS.fls}, qs1, e1)
        else .ok ({s1 with timestamp := PyTS.str r.ts}, qs1, e1) := by
  unfold processLine
  rw [if_pos (show isMarker (tsLineOf r) = true from rfl)]
  show (bind (flushState cfg s qs) _ :
    Except String (LoopState × QueriesMap × List Emitted)) = _
  rw [hflush]
  show (match getLogTimestamp r.ts with
    | none => (Except.error "ValueError: time data does not match format" :
        Except String (LoopState × QueriesMap × List Emitted))
    | some t =>
      if dateReject cfg t
      then Except.ok ({s1 with timestamp := PyTS.fls}, qs1, e1)
      else Except.ok ({s1 with timestamp := PyTS.str r.ts}, qs1, e1)) = _
  rw [getLogTimestamp_of_wf r hwf]

theorem processLine_userLine (cfg : Config) (s s1 : LoopState)
    (qs qs1 : QueriesMap) (e1 : List Emitted) (r : RawRecord)
    (hflush : flushState cfg s qs = .ok (s1, qs1, e1)) :
    processLine cfg s qs (userLineOf r)
      = if s1.timestamp.truthy
        then .ok ({s1 with
            user := r.user,
            in_query := userAccept cfg r.user}, qs1, e1)
        else .ok (s1, qs1, e1) := by
  unfold processLine
  rw [if_pos (show isMarker (userLineOf r) = true from rfl)]
  show (bind (flushState cfg s qs) _ :
    Except String (LoopState × QueriesMap × List Emitted)) = _
  rw [hflush]
  rfl

theorem processLine_qtLine (cfg : Config) (s s1 : LoopState)
    (qs qs1 : QueriesMap) (e1 : List Emitted) (r : RawRecord)
    (hwf : WFRecord r)
    (hflush : flushState cfg s qs = .ok (s1, qs1, e1)) :
    processLine cfg s qs (qtLineOf r)
      = if s1.in_query
        then .ok ({s1 with
            query_time := [val0 r, val1 r, val2 r, val3 r],
            in_query := thresholdPass cfg (val0 r) (val3 r)}, qs1, e1)
        else .ok (s1, qs1, e1) := by
  unfold processLine
  rw [if_pos (show isMarker (qtLineOf r) = true from rfl)]
  show (bind (flushState cfg s qs) _ :
    Except String (LoopState × QueriesMap × List Emitted)) = _
  rw [hflush]
  show (if s1.in_query = true
    then Except.map (fun s2 => (s2, qs1, e1))
      (parseQueryTimeLine cfg s1 (qtLineOf r))
    else Except.ok (s1, qs1, e1)) = _
  rw [parseQueryTimeLine_qtLine cfg s1 r hwf]
  by_cases h : s1.in_query = true
  · rw [if_pos h, if_pos h]
    rfl
  · rw [if_neg h, if_neg h]

theorem flushState_loaded (cfg : Config) (qs : QueriesMap) (p : RawRecord)
    (hnd : cfg.no_duplicates = false) (hne : p.body.flatten ≠ []) :
    flushState cfg (loadedState p) qs
      = .ok ({loadedState p with query := [], in_query := false}, qs,
             if substrOK cfg p.body.flatten then [emitOf p] else []) := by
  unfold flushState
  rw [if_pos (show (loadedState p).query ≠ [] from hne)]
  have hsub : substrPass cfg (loadedState p).query (loadedState p).in_query
      = substrOK cfg p.body.flatten := by
    show substrPass cfg p.body.flatten true = substrOK cfg p.body.flatten
    unfold substrPass substrOK
    by_cases h : cfg.include_queries ≠ []
    · simp only [if_pos h]
    · simp only [if_neg h]
  rw [hsub]
  by_cases h : substrOK cfg p.body.flatten = true
  · rw [if_pos h, if_pos h]
    have hpq : processQuery cfg qs (loadedState p).query (loadedState p).user
        (loadedState p).timestamp (loadedState p).query_time
        = .ok (qs, [emitOf p]) := by
      unfold processQuery
      rw [if_neg (by simp [hnd])]
      rfl
    rw [hpq]
    rfl
  · rw [if_neg h, if_neg h]

theorem flush_pend (cfg : Config) (s : LoopState) (qs : QueriesMap)
    (pend : Option RawRecord) (hnd : cfg.no_duplicates = false)
    (hok : StateOK s pend) :
    ∃ s1, flushState cfg s qs = .ok (s1, qs, pendEmits cfg pend)
      ∧ s1.query = [] ∧ s1.in_query = false := by
  cases pend with
  | none =>
    obtain ⟨hq, hin⟩ := hok
    exact ⟨s, flushState_of_query_nil cfg s qs hq, hq, hin⟩
  | some p =>
    obtain ⟨hs, hne⟩ := hok
    subst hs
    exact ⟨{loadedState p with query := [], in_query := false},
      flushState_loaded cfg qs p hnd hne, rfl, rfl⟩

theorem record_step (cfg : Config) (s : LoopState) (qs : QueriesMap)
    (pend : Option RawRecord) (r : RawRecord)
    (hnd : cfg.no_duplicates = false) (hwf : WFRecord r)
    (hok : StateOK s pend) :
    ∃ s2, runLines cfg s qs (renderRecord r)
        = .ok (s2, qs, pendEmits cfg pend)
      ∧ StateOK s2 (if acceptRecord cfg r then some r else none) := by
  obtain ⟨s1, hflush, hq1, hin1⟩ := flush_pend cfg s qs pend hnd hok
  by_cases hd : dateReject cfg (tOf r) = true
  · have hT : processLine cfg s qs (tsLineOf r)
        = .ok ({s1 with timestamp := PyTS.fls}, qs, pendEmits cfg pend) := by
      rw [processLine_tsLine cfg s s1 qs qs (pendEmits cfg pend) r hwf hflush,
        if_pos hd]
    have hU : processLine cfg {s1 with timestamp := PyTS.fls} qs
        (userLineOf r) = .ok ({s1 with timestamp := PyTS.fls}, qs, []) := by
      rw [processLine_userLine cfg _ _ qs qs [] r
        (flushState_of_query_nil cfg {s1 with timestamp := PyTS.fls} qs hq1),
        if_neg (by simp [PyTS.truthy])]
    have hQ : processLine cfg {s1 with timestamp := PyTS.fls} qs
        (qtLineOf r) = .ok ({s1 with timestamp := PyTS.fls}, qs, []) := by
      rw [processLine_qtLine cfg _ _ qs qs [] r hwf
        (flushState_of_query_nil cfg {s1 with timestamp := PyTS.fls} qs hq1),
        if_neg (by simp [hin1])]
    have hB := runLines_skip_body cfg qs r.body
      {s1 with timestamp := PyTS.fls} hwf.body_ok hin1
    have h3 := runLines_cons cfg _ _ _ qs qs qs [] [] (qtLineOf r) r.body
      hQ hB
    have h2 := runLines_cons cfg _ _ _ qs qs qs [] ([] ++ []) (userLineOf r)
      (qtLineOf r :: r.body) hU h3
    have h1 := runLines_cons cfg _ _ _ qs qs qs (pendEmits cfg pend)
      ([] ++ ([] ++ [])) (tsLineOf r)
      (userLineOf r :: qtLineOf r :: r.body) hT h2
    refine ⟨{s1 with timestamp := PyTS.fls}, ?_, ?_⟩
    · simpa using h1
    · have hpend : (if acceptRecord cfg r then some r else none)
          = (none : Option RawRecord) := by
        rw [show acceptRecord cfg r = false from by simp [acceptRecord, hd]]
        rfl
      rw [hpend]
      exact ⟨hq1, hin1⟩
  · have hd2 : dateReject cfg (tOf r) = false := by simpa using hd
    have hT : processLine cfg s qs (tsLineOf r)
        = .ok ({s1 with timestamp := PyTS.str r.ts}, qs,
               pendEmits cfg pend) := by
      rw [processLine_tsLine cfg s s1 qs qs (pendEmits cfg pend) r hwf hflush,
        if_neg (by simp [hd2])]
    have htr : ({s1 with timestamp := PyTS.str r.ts}).timestamp.truthy
        = true := by
      simp [PyTS.truthy, ts_ne_nil_of_wf r hwf]
    have hU : processLine cfg {s1 with timestamp := PyTS.str r.ts} qs
        (userLineOf r)
        = .ok ({s1 with
            timestamp := PyTS.str r.ts,
            user := r.user,
            in_query := userAccept cfg r.user}, qs, []) := by
      rw [processLine_userLine cfg _ _ qs qs [] r
        (flushState_of_query_nil cfg
          {s1 with timestamp := PyTS.str r.ts} qs hq1), if_pos htr]
    cases hu : userAccept cfg r.user with
    | false =>
      have hQ : processLine cfg {s1 with
            timestamp := PyTS.str r.ts,
            user := r.user,
            in_query := userAccept cfg r.user} qs (qtLineOf r)
          = .ok ({s1 with
              timestamp := PyTS.str r.ts,
              user := r.user,
              in_query := userAccept cfg r.user}, qs, []) := by
        rw [processLine_qtLine cfg _ _ qs qs [] r hwf
          (flushState_of_query_nil cfg {s1 with
            timestamp := PyTS.str r.ts,
            user := r.user,
            in_query := userAccept cfg r.user} qs hq1),
          if_neg (by simp [hu])]
      have hB := runLines_skip_body cfg qs r.body
        {s1 with
          timestamp := PyTS.str r.ts,
          user := r.user,
          in_query := userAccept cfg r.user} hwf.body_ok (by simp [hu])
      have h3 := runLines_cons cfg _ _ _ qs qs qs [] [] (qtLineOf r) r.body
        hQ hB
      have h2 := runLines_cons cfg _ _ _ qs qs qs [] ([] ++ [])
        (userLineOf r) (qtLineOf r :: r.body) hU h3
      have h1 := runLines_cons cfg _ _ _ qs qs qs (pendEmits cfg pend)
        ([] ++ ([] ++ [])) (tsLineOf r)
        (userLineOf r :: qtLineOf r :: r.body) hT h2
      refine ⟨{s1 with
        timestamp := PyTS.str r.ts,
        user := r.user,
        in_query := userAccept cfg r.user}, ?_, ?_⟩
      · simpa using h1
      · have hpend : (if acceptRecord cfg r then some r else none)
            = (none : Option RawRecord) := by
          rw [show acceptRecord cfg r = false from by
            simp [acceptRecord, hu]]
          rfl
        rw [hpend]
        exact ⟨hq1, by simp [hu]⟩
    | true =>
      have hQ : processLine cfg {s1 with
            timestamp := PyTS.str r.ts,
            user := r.user,
            in_query := userAccept cfg r.user} qs (qtLineOf r)
          = .ok ({s1 with
              timestamp := PyTS.str r.ts,
              user := r.user,
              query_time := [val0 r, val1 r, val2 r, val3 r],
              in_query := thresholdPass cfg (val0 r) (val3 r)},
              qs, []) := by
        rw [processLine_qtLine cfg _ _ qs qs [] r hwf
          (flushState_of_query_nil cfg {s1 with
            timestamp := PyTS.str r.ts,
            user := r.user,
            in_query := userAccept cfg r.user} qs hq1),
          if_pos (by simp [hu])]
      cases ht : thresholdPass cfg (val0 r) (val3 r) with
      | false =>
        have hB := runLines_skip_body cfg qs r.body
          {s1 with
            timestamp := PyTS.str r.ts,
            user := r.user,
            query_time := [val0 r, val1 r, val2 r, val3 r],
            in_query := thresholdPass cfg (val0 r) (val3 r)}
          hwf.body_ok (by simp [ht])
        have h3 := runLines_cons cfg _ _ _ qs qs qs [] [] (qtLineOf r)
          r.body hQ hB
        have h2 := runLines_cons cfg _ _ _ qs qs qs [] ([] ++ [])
          (userLineOf r) (qtLineOf r :: r.body) hU h3
        have h1 := runLines_cons cfg _ _ _ qs qs qs (pendEmits cfg pend)
          ([] ++ ([] ++ [])) (tsLineOf r)
          (userLineOf r :: qtLineOf r :: r.body) hT h2
        refine ⟨{s1 with
          timestamp := PyTS.str r.ts,
          user := r.user,
          query_time := [val0 r, val1 r, val2 r, val3 r],
          in_query := thresholdPass cfg (val0 r) (val3 r)}, ?_, ?_⟩
        · simpa using h1
        · have hpend : (if acceptRecord cfg r then some r else none)
              = (none : Option RawRecord) := by
            rw [show acceptRecord cfg r = false from by
              simp [acceptRecord, ht]]
            rfl
          rw [hpend]
          exact ⟨hq1, by simp [ht]⟩
      | true =>
        have hB := runLines_body cfg qs r.body
          {s1 with
            timestamp := PyTS.str r.ts,
            user := r.user,
            query_time := [val0 r, val1 r, val2 r, val3 r],
            in_query := thresholdPass cfg (val0 r) (val3 r)}
          hwf.body_ok ht
        have h3 := runLines_cons cfg _ _ _ qs qs qs [] [] (qtLineOf r)
          r.body hQ hB
        have h2 := runLines_cons cfg _ _ _ qs qs qs [] ([] ++ [])
          (userLineOf r) (qtLineOf r :: r.body) hU h3
        have h1 := runLines_cons cfg _ _ _ qs qs qs (pendEmits cfg pend)
          ([] ++ ([] ++ [])) (tsLineOf r)
          (userLineOf r :: qtLineOf r :: r.body) hT h2
        refine ⟨{s1 with
          timestamp := PyTS.str r.ts,
          user := r.user,
          query_time := [val0 r, val1 r, val2 r, val3 r],
          in_query := thresholdPass cfg (val0 r) (val3 r),
          query := s1.query ++ r.body.flatten}, ?_, ?_⟩
        · simpa using h1
        · have hpend : (if acceptRecord cfg r then some r else none)
              = some r := by
            rw [show acceptRecord cfg r = true from by
              simp [acceptRecord, hd2, hu, ht]]
            rfl
          rw [hpend]
          refine ⟨?_, hwf.body_ne⟩
          show LoopState.mk (thresholdPass cfg (val0 r) (val3 r))
            (s1.query ++ r.body.flatten) (PyTS.str r.ts) r.user
            [val0 r, val1 r, val2 r, val3 r] = loadedState r
          rw [ht, hq1]
          simp [loadedState]

theorem runLines_renderAll (cfg : Config) (rs : List RawRecord) :
    ∀ (s : LoopState) (qs : QueriesMap) (pend : Option RawRecord),
      cfg.no_duplicates = false → (∀ r ∈ rs, WFRecord r) → StateOK s pend →
      ∃ s2, runLines cfg s qs (renderAll rs)
          = .ok (s2, qs, emitsMid cfg pend rs)
        ∧ StateOK s2 (pendAfter cfg pend rs) := by
  induction rs with
  | nil =>
    intro s qs pend hnd hwf hok
    exact ⟨s, rfl, hok⟩
  | cons r rest ih =>
    intro s qs pend hnd hwf hok
    obtain ⟨sm, h1, hok1⟩ := record_step cfg s qs pend r hnd
      (hwf r (by simp)) hok
    obtain ⟨s2, h2, hok2⟩ := ih sm qs
      (if acceptRecord cfg r then some r else none) hnd
      (fun x hx => hwf x (by simp [hx])) hok1
    refine ⟨s2, ?_, hok2⟩
    have hall := runLines_append cfg (renderRecord r) (renderAll rest)
      s sm s2 qs qs qs (pendEmits cfg pend)
      (emitsMid cfg (if acceptRecord cfg r then some r else none) rest)
      h1 h2
    have hra : renderAll (r :: rest) = renderRecord r ++ renderAll rest := by
      simp [renderAll]
    rw [hra, hall]
    rfl

theorem runRead_renderAll (cfg : Config) (rs : List RawRecord)
    (hnd : cfg.no_duplicates = false) (hwf : ∀ r ∈ rs, WFRecord r) :
    ∃ s2, runRead cfg (renderAll rs)
      = .ok (s2, [],
          emitsMid cfg none rs ++ eofEmits (pendAfter cfg none rs)) := by
  obtain ⟨s2, hrun, hok⟩ := runLines_renderAll cfg rs {} [] none hnd hwf
    ⟨rfl, rfl⟩
  cases hpa : pendAfter cfg none rs with
  | none =>
    obtain ⟨hq, hin⟩ := hpa ▸ hok
    refine ⟨s2, ?_⟩
    unfold runRead
    show (bind (runLines cfg {} [] (renderAll rs)) _ :
      Except String (LoopState × QueriesMap × List Emitted)) = _
    rw [hrun]
    show (if s2.query ≠ [] then _ else _ :
      Except String (LoopState × QueriesMap × List Emitted)) = _
    rw [if_neg (by simp [hq])]
    simp [hpa, eofEmits]
  | some p =>
    obtain ⟨hs, hne⟩ := hpa ▸ hok
    subst hs
    refine ⟨loadedState p, ?_⟩
    unfold runRead
    show (bind (runLines cfg {} [] (renderAll rs)) _ :
      Except String (LoopState × QueriesMap × List Emitted)) = _
    rw [hrun]
    show (if (loadedState p).query ≠ [] then _ else _ :
      Except String (LoopState × QueriesMap × List Emitted)) = _
    rw [if_pos (show (loadedState p).query ≠ [] from hne)]
    show (bind (processQuery cfg [] (loadedState p).query
      (loadedState p).user (loadedState p).timestamp
      (loadedState p).query_time) _ :
      Except String (LoopState × QueriesMap × List Emitted)) = _
    rw [show processQuery cfg [] (loadedState p).query (loadedState p).user
        (loadedState p).timestamp (loadedState p).query_time
        = .ok ([], [emitOf p]) from by
      unfold processQuery
      rw [if_neg (by simp [hnd])]
      rfl]
    rfl

theorem runFilter_renderAll (cfg : Config) (rs : List RawRecord)
    (hnd : cfg.no_duplicates = false) (hwf : ∀ r ∈ rs, WFRecord r) :
    runFilter cfg (renderAll rs)
      = .ok (emitsMid cfg none rs ++ eofEmits (pendAfter cfg none rs)) := by
  obtain ⟨s2, h⟩ := runRead_renderAll cfg rs hnd hwf
  unfold runFilter
  rw [h]
  rfl

theorem emitsMid_eof_eq_emitsOf (cfg : Config) :
    ∀ (rs : List RawRecord) (r : RawRecord),
      emitsMid cfg (if acceptRecord cfg r then some r else none) rs
          ++ eofEmits (pendAfter cfg
            (if acceptRecord cfg r then some r else none) rs)
        = emitsOf cfg (r :: rs)
  | [], r => by
    cases hacc : acceptRecord cfg r with
    | false => simp [emitsMid, pendAfter, eofEmits, emitsOf, hacc]
    | true => simp [emitsMid, pendAfter, eofEmits, emitsOf, hacc]
  | r2 :: rest, r => by
    have ih := emitsMid_eof_eq_emitsOf cfg rest r2
    have hpe : pendEmits cfg (if acceptRecord cfg r then some r else none)
        = if acceptRecord cfg r && substrOK cfg r.body.flatten
          then [emitOf r] else [] := by
      cases hacc : acceptRecord cfg r with
      | false => simp [pendEmits, hacc]
      | true => simp [pendEmits, hacc]
    simp only [emitsMid, pendAfter, emitsOf]
    rw [List.append_assoc, ih, hpe]

theorem emitsOf_characterisation (cfg : Config) (rs : List RawRecord) :
    emitsMid cfg none rs ++ eofEmits (pendAfter cfg none rs)
      = emitsOf cfg rs := by
  cases rs with
  | nil => rfl
  | cons r rest =>
    have h := emitsMid_eof_eq_emitsOf cfg rest r
    simp only [emitsMid, pendAfter, pendEmits]
    simpa using h

theorem emitsOf_mem (cfg : Config) :
    ∀ (rs : List RawRecord) (e : Emitted), e ∈ emitsOf cfg rs →
      ∃ r ∈ rs, e = emitOf r ∧ acceptRecord cfg r = true
  | [], e => by
    intro h
    exact absurd h (by simp [emitsOf])
  | [r], e => by
    intro h
    simp only [emitsOf] at h
    by_cases hacc : acceptRecord cfg r = true
    · rw [if_pos hacc] at h
      simp at h
      exact ⟨r, by simp, h, hacc⟩
    · rw [if_neg hacc] at h
      exact absurd h (by simp)
  | r :: r2 :: rest, e => by
    intro h
    simp only [emitsOf] at h
    rcases List.mem_append.mp h with h | h
    · by_cases hacc : (acceptRecord cfg r && substrOK cfg r.body.flatten)
          = true
      · rw [if_pos hacc] at h
        simp at h
        rw [Bool.and_eq_true] at hacc
        exact ⟨r, by simp, h, hacc.1⟩
      · rw [if_neg hacc] at h
        exact absurd h (by simp)
    · obtain ⟨x, hx, he, ha⟩ := emitsOf_mem cfg (r2 :: rest) e h
      exact ⟨x, List.mem_cons_of_mem r hx, he, ha⟩

theorem emitsOf_dropLast_mem (cfg : Config) :
    ∀ (rs : List RawRecord) (e : Emitted), e ∈ (emitsOf cfg rs).dropLast →
      ∃ r ∈ rs, e = emitOf r ∧ acceptRecord cfg r = true
        ∧ substrOK cfg r.body.flatten = true
  | [], e => by
    intro h
    exact absurd h (by simp [emitsOf])
  | [r], e => by
    intro h
    exfalso
    simp only [emitsOf] at h
    by_cases hacc : acceptRecord cfg r = true
    · rw [if_pos hacc] at h
      simp at h
    · rw [if_neg hacc] at h
      simp at h
  | r :: r2 :: rest, e => by
    intro h
    simp only [emitsOf] at h
    by_cases hnil : emitsOf cfg (r2 :: rest) = []
    · exfalso
      rw [hnil] at h
      by_cases hacc : (acceptRecord cfg r && substrOK cfg r.body.flatten)
          = true
      · rw [if_pos hacc] at h
        simp at h
      · rw [if_neg hacc] at h
        simp at h
    · rw [List.dropLast_append_of_ne_nil _ hnil] at h
      rcases List.mem_append.mp h with h | h
      · by_cases hacc : (acceptRecord cfg r && substrOK cfg r.body.flatten)
            = true
        · rw [if_pos hacc] at h
          simp at h
          rw [Bool.and_eq_true] at hacc
          exact ⟨r, by simp, h, hacc.1, hacc.2⟩
        · rw [if_neg hacc] at h
          exact absurd h (by simp)
      · obtain ⟨x, hx, he, ha, hsu⟩ :=
          emitsOf_dropLast_mem cfg (r2 :: rest) e h
        exact ⟨x, List.mem_cons_of_mem r hx, he, ha, hsu⟩

theorem acceptRecord_iff (cfg : Config) (r : RawRecord) :
    acceptRecord cfg r = true
      ↔ (thresholdPass cfg (val0 r) (val3 r) = true
          ∧ userAccept cfg r.user = true
          ∧ (tsTruthy cfg.date_first = true
              → cfg.date_first.getD 0 ≤ tOf r)
          ∧ (tsTruthy cfg.date_last = true
              → tOf r ≤ cfg.date_last.getD 0)) := by
  rw [show acceptRecord cfg r
      = (!dateReject cfg (tOf r) && userAccept cfg r.user
          && thresholdPass cfg (val0 r) (val3 r)) from rfl]
  rw [Bool.and_eq_true, Bool.and_eq_true, Bool.not_eq_true']
  rw [show dateReject cfg (tOf r)
      = ((tsTruthy cfg.date_first
            && decide (tOf r < cfg.date_first.getD 0))
          || (tsTruthy cfg.date_last
            && decide (tOf r > cfg.date_last.getD 0))) from rfl]
  rw [Bool.or_eq_false_iff, Bool.and_eq_false_iff, Bool.and_eq_false_iff]
  constructor
  · rintro ⟨⟨⟨h1, h2⟩, hu⟩, ht⟩
    refine ⟨ht, hu, ?_, ?_⟩
    · intro htf
      rcases h1 with h | h
      · rw [htf] at h
        exact absurd h (by simp)
      · rw [decide_eq_false_iff_not] at h
        omega
    · intro htl
      rcases h2 with h | h
      · rw [htl] at h
        exact absurd h (by simp)
      · rw [decide_eq_false_iff_not] at h
        omega
  · rintro ⟨ht, hu, hf, hl⟩
    refine ⟨⟨⟨?_, ?_⟩, hu⟩, ht⟩
    · cases htf : tsTruthy cfg.date_first with
      | false => exact Or.inl rfl
      | true =>
        refine Or.inr ?_
        rw [decide_eq_false_iff_not]
        have := hf htf
        omega
    · cases htl : tsTruthy cfg.date_last with
      | false => exact Or.inl rfl
      | true =>
        refine Or.inr ?_
        rw [decide_eq_false_iff_not]
        have := hl htl
        omega

/-- C2, amended: for a stream of complete well-formed records in
non-duplicate mode, the emitted records are exactly those given by
emitsOf: every emitted record satisfies the threshold filter, the user
filter and date-interval membership with inclusive start and INCLUSIVE
end on its own data, and every emitted record except possibly the
trailing one flushed at end of stream also satisfies the
query-substring filter, which the end-of-stream flush bypasses. -/
theorem claim_C2_amended (cfg : Config) (rs : List RawRecord)
    (hnd : cfg.no_duplicates = false) (hwf : ∀ r ∈ rs, WFRecord r) :
    runFilter cfg (renderAll rs) = .ok (emitsOf cfg rs)
    ∧ (∀ e ∈ emitsOf cfg rs, ∃ r ∈ rs, e = emitOf r
        ∧ thresholdPass cfg (val0 r) (val3 r) = true
        ∧ userAccept cfg r.user = true
        ∧ (tsTruthy cfg.date_first = true
            → cfg.date_first.getD 0 ≤ tOf r)
        ∧ (tsTruthy cfg.date_last = true
            → tOf r ≤ cfg.date_last.getD 0))
    ∧ (∀ e ∈ (emitsOf cfg rs).dropLast, ∃ r ∈ rs, e = emitOf r
        ∧ substrOK cfg r.body.flatten = true) := by
  refine ⟨?_, ?_, ?_⟩
  · rw [runFilter_renderAll cfg rs hnd hwf, emitsOf_characterisation]
  · intro e he
    obtain ⟨r, hr, heq, hacc⟩ := emitsOf_mem cfg rs e he
    obtain ⟨h1, h2, h3, h4⟩ := (acceptRecord_iff cfg r).mp hacc
    exact ⟨r, hr, heq, h1, h2, h3, h4⟩
  · intro e he
    obtain ⟨r, hr, heq, _, hsu⟩ := emitsOf_dropLast_mem cfg rs e he
    exact ⟨r, hr, heq, hsu⟩

/-- Witness for claim_C2_amended at the default configuration and a
single concrete record. -/
theorem claim_C2_witness :
    ({} : Config).no_duplicates = false
    ∧ (∀ r ∈ [recW], WFRecord r)
    ∧ (runFilter {} (renderAll [recW]) = .ok (emitsOf {} [recW])
      ∧ (∀ e ∈ emitsOf {} [recW], ∃ r ∈ [recW], e = emitOf r
          ∧ thresholdPass {} (val0 r) (val3 r) = true
          ∧ userAccept {} r.user = true
          ∧ (tsTruthy ({} : Config).date_first = true
              → ({} : Config).date_first.getD 0 ≤ tOf r)
          ∧ (tsTruthy ({} : Config).date_last = true
              → tOf r ≤ ({} : Config).date_last.getD 0))
      ∧ (∀ e ∈ (emitsOf {} [recW]).dropLast, ∃ r ∈ [recW], e = emitOf r
          ∧ substrOK {} r.body.flatten = true)) := by
  have hwf : ∀ r ∈ [recW], WFRecord r := by
    intro r hr
    rw [List.mem_singleton] at hr
    subst hr
    exact ⟨by decide, by decide, by decide, by decide, by decide, by decide,
      by decide, by decide, by decide, by decide, by decide⟩
  exact ⟨rfl, hwf, claim_C2_amended {} [recW] rfl hwf⟩

end MysqlLogFilter
